import Mathlib

/-!
# SphinxQL wire-protocol engine: embedding and verified properties

A shallow embedding of the packet layer of the Go SphinxQL driver
(`packets.go`, `connection.go`, `rows.go`, `result.go`).

Conventions of the embedding
* a byte is a `Nat` (theorems assume `< 256` where the width matters), a Go
  `string` or `[]byte` is a `List Nat`;
* the session `*sphinxqlConn` is threaded explicitly: every method takes the
  session and returns the updated session next to its Go results;
* a Go `error` result is an `Option Err` (`none` is `nil`);
* a call that can end in a Go run-time panic (index or slice out of range)
  returns a `Run`, whose `panic` constructor is that abnormal end;
* unbounded `for` loops carry a fuel argument; the entry points supply the
  number of unread bytes plus one, which the loops can never exhaust because
  every iteration consumes at least a 4-byte header.
-/

namespace Sphinxql

/-! ## Errors and outcomes -/

/-- Error values of the driver. `ErrBadConn` is `driver.ErrBadConn`, `EOF` is
`io.EOF`, `errorf` carries the text built by `fmt.Errorf` / `errors.New`.
The `err...` variables are declared outside the files at hand; only their
identity matters here. -/
inductive Err where
  | ErrBadConn
  | errMalformPkt
  | errPktSync
  | errPktSyncMul
  | errOldPassword
  | EOF
  | errorf (text : List Nat)
deriving DecidableEq, Repr

/-- Outcome of a call that may end in a Go run-time panic. -/
inductive Run (α : Type) where
  | ret (a : α)
  | panic
deriving DecidableEq, Repr

/-- Bytes of a string literal (all literals used are ASCII). -/
def strBytes (s : String) : List Nat := s.toList.map Char.toNat

/-- Decimal rendering of a number, as `%d` prints it. -/
def decBytes (n : Nat) : List Nat := strBytes (Nat.repr n)

/-! ## Session state -/

/-- The `config` struct (fields used by the packet layer). -/
structure config where
  user : List Nat
  passwd : List Nat
  dbname : List Nat
deriving DecidableEq, Repr

/-- Modelled from the spec: the transport's write side (`net.Conn`, an
external collaborator: "a bidirectional ordered byte stream"). `written` is
everything accepted so far; `room` is how many more bytes the stream accepts
before it breaks (`none`: no limit). -/
structure NetConn where
  written : List Nat
  room : Option Nat
deriving DecidableEq, Repr

/-- Modelled from the spec: `Write` on the transport. All bytes are accepted
when there is room; otherwise only the first `room` bytes are, and an error is
reported next to the short count. -/
def NetConn.Write (c : NetConn) (data : List Nat) : (Nat × Option Err) × NetConn :=
  match c.room with
  | none => ((data.length, none), { c with written := c.written ++ data })
  | some r =>
    if data.length ≤ r then
      ((data.length, none), { written := c.written ++ data, room := some (r - data.length) })
    else
      ((r, some Err.ErrBadConn), { written := c.written ++ data.take r, room := some 0 })

/-- Modelled from the spec: the read buffer over the transport (`buffer.go`
is not among the files): the bytes the peer has sent and the session has not
read yet. -/
structure buffer where
  pending : List Nat
deriving DecidableEq, Repr

/-- Modelled from the spec: `buffer.read` fills a slice of `n` bytes with the
next `n` bytes of the stream, or fails on a short read (stream ended), in
which case what was left has been consumed. -/
def buffer.read (b : buffer) (n : Nat) : Except Err (List Nat) × buffer :=
  if n ≤ b.pending.length then
    (.ok (b.pending.take n), { pending := b.pending.drop n })
  else
    (.error Err.ErrBadConn, { pending := [] })

/-- The `sphinxqlConn` struct. -/
structure sphinxqlConn where
  cfg : config
  flags : Nat
  charset : Nat
  cipher : List Nat
  netConn : NetConn
  buf : buffer
  protocol : Nat
  sequence : Nat
  affectedRows : Nat
  insertId : Nat
deriving DecidableEq, Repr

/-! ## Framing (`packets.go`) -/

/-- Packet length of a header: `uint32(d0) | uint32(d1)<<8 | uint32(d2)<<16`. -/
def pktLenOf (d0 d1 d2 : Nat) : Nat := d0 ||| d1 <<< 8 ||| d2 <<< 16

/-- `readPacket`: read the 4-byte header, check length and sequence, read the
body. -/
def readPacket (mc : sphinxqlConn) : Except Err (List Nat) × sphinxqlConn :=
  match mc.buf.read 4 with
  | (.error _, b) => (.error Err.ErrBadConn, { mc with buf := b })
  | (.ok hdr, b) =>
    let mc1 := { mc with buf := b }
    let pktLen := pktLenOf (hdr.getD 0 0) (hdr.getD 1 0) (hdr.getD 2 0)
    if pktLen < 1 then
      (.error Err.ErrBadConn, mc1)
    else if hdr.getD 3 0 ≠ mc1.sequence then
      if hdr.getD 3 0 > mc1.sequence then
        (.error Err.errPktSyncMul, mc1)
      else
        (.error Err.errPktSync, mc1)
    else
      let mc2 := { mc1 with sequence := (mc1.sequence + 1) % 256 }
      match mc2.buf.read pktLen with
      | (.ok data, b2) => (.ok data, { mc2 with buf := b2 })
      | (.error _, b2) => (.error Err.ErrBadConn, { mc2 with buf := b2 })

/-- `writePacket`: hand the bytes to the transport; the counter advances only
when all of them were accepted without error. -/
def writePacket (data : List Nat) (mc : sphinxqlConn) : Option Err × sphinxqlConn :=
  match mc.netConn.Write data with
  | ((n, err), c) =>
    let mc1 := { mc with netConn := c }
    if err = none ∧ n = data.length then
      (none, { mc1 with sequence := (mc1.sequence + 1) % 256 })
    else
      (some Err.ErrBadConn, mc1)

/-! ## Command packets -/

/-- `writeCommandPacket`. -/
def writeCommandPacket (command : Nat) (mc : sphinxqlConn) : Option Err × sphinxqlConn :=
  let mc0 := { mc with sequence := 0 }
  writePacket [0x05, 0x00, 0x00, mc0.sequence, command] mc0

/-- `writeCommandPacketStr`. -/
def writeCommandPacketStr (command : Nat) (arg : List Nat) (mc : sphinxqlConn) :
    Option Err × sphinxqlConn :=
  let mc0 := { mc with sequence := 0 }
  let pktLen := 1 + arg.length
  writePacket
    ([pktLen % 256, (pktLen >>> 8) % 256, (pktLen >>> 16) % 256, mc0.sequence, command] ++ arg)
    mc0

/-- `writeCommandPacketUint32`. -/
def writeCommandPacketUint32 (command : Nat) (arg : Nat) (mc : sphinxqlConn) :
    Option Err × sphinxqlConn :=
  let mc0 := { mc with sequence := 0 }
  writePacket
    [0x05, 0x00, 0x00, mc0.sequence, command,
      arg % 256, (arg >>> 8) % 256, (arg >>> 16) % 256, (arg >>> 24) % 256]
    mc0

/-! ## Length-encoded codec -/

/-- Little-endian value of a byte sequence. -/
def leValue : List Nat → Nat
  | [] => 0
  | b :: bs => b + 256 * leValue bs

/-- Modelled from the spec: the length-encoded integer decoder (`utils.go` is
not among the files; its callers fix the result shape: value, NULL flag,
consumed byte count). "First byte <0xfb is the literal value; 0xfb denotes
NULL; 0xfc/0xfd/0xfe denote that the following 2/3/8 little-endian bytes hold
the value"; "any attempt to read past the buffer end fails with
MalformedPacket". The spec gives no meaning to a first byte 0xff, which is
rejected here as well. -/
def readLengthEncodedInteger (b : List Nat) : Except Err (Nat × Bool × Nat) :=
  match b with
  | [] => .error Err.errMalformPkt
  | b0 :: rest =>
    if b0 < 0xfb then .ok (b0, false, 1)
    else if b0 = 0xfb then .ok (0, true, 1)
    else if b0 = 0xfc then
      if 2 ≤ rest.length then .ok (leValue (rest.take 2), false, 3) else .error Err.errMalformPkt
    else if b0 = 0xfd then
      if 3 ≤ rest.length then .ok (leValue (rest.take 3), false, 4) else .error Err.errMalformPkt
    else if b0 = 0xfe then
      if 8 ≤ rest.length then .ok (leValue (rest.take 8), false, 9) else .error Err.errMalformPkt
    else .error Err.errMalformPkt

/-- A value a row slot can hold: `none` is Go's `nil` (the absent marker),
`some bs` a byte string. -/
abbrev Value := Option (List Nat)

/-- Modelled from the spec: the length-encoded string decoder (`utils.go` is
not among the files): "the length is itself a length-encoded integer (or NULL
sentinel) followed by that many raw bytes"; a NULL carries the absent marker,
"distinct from an empty string"; reading past the buffer end fails with
MalformedPacket. Results: value, NULL flag, consumed byte count. -/
def readLengthEnodedString (data : List Nat) : Except Err (Value × Bool × Nat) :=
  match readLengthEncodedInteger data with
  | .error e => .error e
  | .ok (num, isNull, n) =>
    if isNull then .ok (none, true, n)
    else if n + num ≤ data.length then .ok (some ((data.drop n).take num), false, n + num)
    else .error Err.errMalformPkt

/-- Modelled from the spec: the "skip" variant of the string decoder, which
"advances a cursor without materializing content". Result: consumed byte
count. -/
def skipLengthEnodedString (data : List Nat) : Except Err Nat :=
  match readLengthEncodedInteger data with
  | .error e => .error e
  | .ok (num, isNull, n) =>
    if isNull then .ok n
    else if n + num ≤ data.length then .ok (n + num)
    else .error Err.errMalformPkt

/-- Go's conversion of a `uint64` to `int64` (and to `int`, taken to be 64
bits wide): two's-complement reinterpretation. -/
def toInt64 (n : Nat) : Int :=
  if n % 2 ^ 64 < 2 ^ 63 then ((n % 2 ^ 64 : Nat) : Int) else ((n % 2 ^ 64 : Nat) : Int) - 2 ^ 64

/-! ## Result packets -/

/-- Text of the error built by `handleErrorPacket`:
`fmt.Errorf("Error %d: %s", errno, msg)`. -/
def serverErrorText (errno : Nat) (msg : List Nat) : List Nat :=
  strBytes "Error " ++ decBytes errno ++ strBytes ": " ++ msg

/-- `handleErrorPacket`. `data[0]` needs one byte, `data[1:3]` three and
`data[9:]` nine; each is a run-time panic on a shorter packet. -/
def handleErrorPacket (data : List Nat) : Run Err :=
  match data with
  | [] => .panic
  | d0 :: _ =>
    if d0 ≠ 255 then .ret Err.errMalformPkt
    else if data.length < 3 then .panic
    else
      let errno := data.getD 1 0 ||| data.getD 2 0 <<< 8
      if data.length < 9 then .panic
      else .ret (Err.errorf (serverErrorText errno (data.drop 9)))

/-- `handleOkPacket`, called on a non-empty packet. The Go function has no
result and its callers go on unconditionally after it, so there is no way for
it to report a failure: when one of its two decoder calls fails, the call
does not return, which is a run-time panic. -/
def handleOkPacket (data : List Nat) (mc : sphinxqlConn) : Run sphinxqlConn :=
  match readLengthEncodedInteger (data.drop 1) with
  | .error _ => .panic
  | .ok (num, _, n) =>
    let mc1 := { mc with affectedRows := num }
    match readLengthEncodedInteger (data.drop (1 + n)) with
    | .error _ => .panic
    | .ok (num2, _, _) => .ret { mc1 with insertId := num2 }

/-- `readResultSetHeaderPacket`. The packet `readPacket` returns is never
empty (`readPacket_ok`), so `data[0]` exists; `int(num)` is the conversion to
a 64-bit `int`. After `handleOkPacket` the function returns `0, nil`
unconditionally, so it returns at all only if `handleOkPacket` does. In the
column-count branch a decoder that cannot read its integer has not consumed
the packet, and the function ends with its own `return 0, errMalformPkt`,
the failure the decoder is specified with. -/
def readResultSetHeaderPacket (mc : sphinxqlConn) : Run ((Int × Option Err) × sphinxqlConn) :=
  match readPacket mc with
  | (.error e, mc1) => .ret ((0, some e), mc1)
  | (.ok data, mc1) =>
    if data.getD 0 0 = 0 then
      match handleOkPacket data mc1 with
      | .ret mc2 => .ret ((0, none), mc2)
      | .panic => .panic
    else if data.getD 0 0 = 255 then
      match handleErrorPacket data with
      | .ret e => .ret ((0, some e), mc1)
      | .panic => .panic
    else
      match readLengthEncodedInteger data with
      | .error e => .ret ((0, some e), mc1)
      | .ok (num, _, n) =>
        if n = data.length then .ret ((toInt64 num, none), mc1)
        else .ret ((0, some Err.errMalformPkt), mc1)

/-- Loop of `readUntilEOF`. With no fuel left the stream is necessarily
exhausted, which is a failed read. -/
def readUntilEOFLoop : Nat → sphinxqlConn → Option Err × sphinxqlConn
  | 0, mc => (some Err.ErrBadConn, mc)
  | fuel + 1, mc =>
    match readPacket mc with
    | (.ok data, mc1) =>
      if data.getD 0 0 ≠ 254 ∨ data.length ≠ 5 then readUntilEOFLoop fuel mc1
      else (none, mc1)
    | (.error e, mc1) => (some e, mc1)

/-- `readUntilEOF`. -/
def readUntilEOF (mc : sphinxqlConn) : Option Err × sphinxqlConn :=
  readUntilEOFLoop (mc.buf.pending.length + 1) mc

/-! ## Column definitions and rows -/

/-- The `sphinxqlField` struct. -/
structure sphinxqlField where
  name : List Nat
  fieldType : Nat
  flags : Nat
deriving DecidableEq, Repr

/-- Text of the error `readColumns` builds on a count mismatch:
`fmt.Errorf("ColumnsCount mismatch n:%d len:%d", count, len(columns))`. -/
def columnsCountMismatch (count len : Nat) : Err :=
  Err.errorf (strBytes "ColumnsCount mismatch n:" ++ decBytes count ++
    strBytes " len:" ++ decBytes len)

/-- The part of one iteration of `readColumns` that runs before `columns[i]`
is first touched: skip catalog, database, table and original table, then read
the name. Result: the name and the cursor just behind it. -/
def readColumnName (data : List Nat) : Except Err (List Nat × Nat) :=
  match skipLengthEnodedString data with
  | .error e => .error e
  | .ok pos =>
    match skipLengthEnodedString (data.drop pos) with
    | .error e => .error e
    | .ok n =>
      let pos := pos + n
      match skipLengthEnodedString (data.drop pos) with
      | .error e => .error e
      | .ok n =>
        let pos := pos + n
        match skipLengthEnodedString (data.drop pos) with
        | .error e => .error e
        | .ok n =>
          let pos := pos + n
          match readLengthEnodedString (data.drop pos) with
          | .error e => .error e
          | .ok (name, _, n) => .ok (name.getD [], pos + n)

/-- Loop of `readColumns`: `columns` and `i` are the loop variables.
`columns[i]` is a run-time panic once `i` has reached `len(columns)`, and so
are `data[pos]` and `data[pos:pos+2]` beyond the packet. With no fuel left the
stream is necessarily exhausted, which is a failed read. -/
def readColumnsLoop (count : Nat) :
    Nat → List sphinxqlField → Nat → sphinxqlConn →
      Run ((List sphinxqlField × Option Err) × sphinxqlConn)
  | 0, columns, _, mc => .ret ((columns, some Err.ErrBadConn), mc)
  | fuel + 1, columns, i, mc =>
    match readPacket mc with
    | (.error e, mc1) => .ret ((columns, some e), mc1)
    | (.ok data, mc1) =>
      if data.getD 0 0 = 254 ∧ data.length = 5 then
        if i ≠ count then
          .ret ((columns, some (columnsCountMismatch count columns.length)), mc1)
        else .ret ((columns, none), mc1)
      else
        match readColumnName data with
        | .error e => .ret ((columns, some e), mc1)
        | .ok (name, pos) =>
          match columns.get? i with
          | none => .panic
          | some f =>
            let columns1 := columns.set i { f with name := name }
            match skipLengthEnodedString (data.drop pos) with
            | .error e => .ret ((columns1, some e), mc1)
            | .ok n =>
              let pos := pos + n + 1 + 2 + 4
              match data.get? pos with
              | none => .panic
              | some ft =>
                let pos := pos + 1
                if data.length < pos + 2 then .panic
                else
                  let fl := data.getD pos 0 ||| data.getD (pos + 1) 0 <<< 8
                  readColumnsLoop count fuel
                    (columns.set i { name := name, fieldType := ft, flags := fl }) (i + 1) mc1

/-- `readColumns`. -/
def readColumns (count : Nat) (mc : sphinxqlConn) :
    Run ((List sphinxqlField × Option Err) × sphinxqlConn) :=
  readColumnsLoop count (mc.buf.pending.length + 1)
    (List.replicate count { name := [], fieldType := 0, flags := 0 }) 0 mc

/-- The `for i := range dest` loop of `readRow`: `pos` is the cursor, `done`
are the slots already passed, the last argument the slots from `i` on. A
non-NULL field is stored and the loop continues; a NULL field stores `nil`
and then leaves the function through the `return` that follows; a decoder
error leaves it through the same `return`, the slot holding `nil`. -/
def readRowLoop (data : List Nat) : Nat → List Value → List Value → List Value × Option Err
  | _, done, [] => (done, none)
  | pos, done, _ :: rest =>
    match readLengthEnodedString (data.drop pos) with
    | .ok (v, isNull, n) =>
      if !isNull then readRowLoop data (pos + n) (done ++ [v]) rest
      else (done ++ [none] ++ rest, none)
    | .error e => (done ++ [none] ++ rest, some e)

/-- `readRow`: `dest` goes in and comes back (the slice is filled in place). -/
def readRow (dest : List Value) (mc : sphinxqlConn) :
    (List Value × Option Err) × sphinxqlConn :=
  match readPacket mc with
  | (.error e, mc1) => ((dest, some e), mc1)
  | (.ok data, mc1) =>
    if data.getD 0 0 = 254 ∧ data.length = 5 then ((dest, some Err.EOF), mc1)
    else (readRowLoop data 0 [] dest, mc1)

/-! ## `connection.go`, `rows.go`, `result.go` -/

/-- Modelled from the spec: the command byte of a query (`const.go` is not
among the files; the wire format is "exactly the MySQL client/server
protocol", where `COM_QUERY` is 3). -/
def COM_QUERY : Nat := 3

/-- Modelled from the spec: the command byte that closes the session
(`COM_QUIT` is 1 in the MySQL protocol). -/
def COM_QUIT : Nat := 1

/-- The `sphinxqlResult` struct. -/
structure sphinxqlResult where
  affectedRows : Int
  insertId : Int
deriving DecidableEq, Repr

/-- `sphinxqlResult.LastInsertId`. -/
def sphinxqlResult.LastInsertId (res : sphinxqlResult) : Int × Option Err := (res.insertId, none)

/-- `sphinxqlResult.RowsAffected`. -/
def sphinxqlResult.RowsAffected (res : sphinxqlResult) : Int × Option Err :=
  (res.affectedRows, none)

/-- The `sphinxqlRows` struct; `mc` tells whether the pointer to the session
is set (the session itself is threaded next to the rows). -/
structure sphinxqlRows where
  mc : Bool
  columns : List sphinxqlField
  eof : Bool
deriving DecidableEq, Repr

/-- The internal `exec`. -/
def exec (query : List Nat) (mc : sphinxqlConn) : Run (Option Err × sphinxqlConn) :=
  match writeCommandPacketStr COM_QUERY query mc with
  | (some e, mc1) => .ret (some e, mc1)
  | (none, mc1) =>
    match readResultSetHeaderPacket mc1 with
    | .panic => .panic
    | .ret ((resLen, err), mc2) =>
      if err = none ∧ resLen > 0 then
        match readUntilEOF mc2 with
        | (some e, mc3) => .ret (some e, mc3)
        | (none, mc3) => .ret (readUntilEOF mc3)
      else .ret (err, mc2)

/-- `sphinxqlConn.Exec`. -/
def Exec (query : List Nat) (args : List Value) (mc : sphinxqlConn) :
    Run ((Option sphinxqlResult × Option Err) × sphinxqlConn) :=
  if args.length = 0 then
    let mc0 := { mc with affectedRows := 0, insertId := 0 }
    match exec query mc0 with
    | .panic => .panic
    | .ret (none, mc1) =>
      .ret ((some { affectedRows := toInt64 mc1.affectedRows, insertId := toInt64 mc1.insertId },
        none), mc1)
    | .ret (some e, mc1) => .ret ((none, some e), mc1)
  else .ret ((none, some (Err.errorf (strBytes "args not supported"))), mc)

/-- `sphinxqlConn.Query`. -/
def Query (query : List Nat) (args : List Value) (mc : sphinxqlConn) :
    Run ((Option sphinxqlRows × Option Err) × sphinxqlConn) :=
  if args.length = 0 then
    match writeCommandPacketStr COM_QUERY query mc with
    | (some e, mc1) => .ret ((none, some e), mc1)
    | (none, mc1) =>
      match readResultSetHeaderPacket mc1 with
      | .panic => .panic
      | .ret ((_, some e), mc2) => .ret ((none, some e), mc2)
      | .ret ((resLen, none), mc2) =>
        if resLen > 0 then
          match readColumns resLen.toNat mc2 with
          | .panic => .panic
          | .ret ((columns, err), mc3) =>
            .ret ((some { mc := true, columns := columns, eof := false }, err), mc3)
        else .ret ((some { mc := true, columns := [], eof := false }, none), mc2)
  else .ret ((none, some (Err.errorf (strBytes "args not supported"))), mc)

/-- `sphinxqlRows.Columns`. -/
def sphinxqlRows.Columns (rows : sphinxqlRows) : List (List Nat) :=
  rows.columns.map (fun f => f.name)

/-- `sphinxqlRows.Close`; the deferred function clears `rows.mc` on every
path. -/
def sphinxqlRows.Close (rows : sphinxqlRows) (mc : sphinxqlConn) :
    (Option Err × sphinxqlRows) × sphinxqlConn :=
  if !rows.eof then
    if !rows.mc then
      ((some (Err.errorf (strBytes "Invalid Connection")), { rows with mc := false }), mc)
    else
      match readUntilEOF mc with
      | (err, mc1) => ((err, { rows with mc := false }), mc1)
  else ((none, { rows with mc := false }), mc)

/-- `sphinxqlRows.Next`. -/
def sphinxqlRows.Next (rows : sphinxqlRows) (dest : List Value) (mc : sphinxqlConn) :
    ((List Value × Option Err) × sphinxqlRows) × sphinxqlConn :=
  if rows.eof then (((dest, some Err.EOF), rows), mc)
  else if !rows.mc then
    (((dest, some (Err.errorf (strBytes "Invalid Connection"))), rows), mc)
  else
    match readRow dest mc with
    | ((dest1, err), mc1) =>
      if err = some Err.EOF then (((dest1, err), { rows with eof := true }), mc1)
      else (((dest1, err), rows), mc1)

/-! ## Handshake and authentication (`packets.go`), statements (`statement.go`) -/

/-- Modelled from the spec: the minimum supported protocol version (`const.go`
is not among the files; scenario A takes version 10, the version of the MySQL
protocol the wire format follows, as supported). -/
def MIN_PROTOCOL_VERSION : Nat := 10

/-- Modelled from the spec: the capability bit "long password" (`const.go` is
not among the files; the value is the one of the MySQL protocol, as for the
five bits that follow). -/
def CLIENT_LONG_PASSWORD : Nat := 1

/-- Modelled from the spec: the capability bit "long flag". -/
def CLIENT_LONG_FLAG : Nat := 4

/-- Modelled from the spec: the capability bit "connect with database". -/
def CLIENT_CONNECT_WITH_DB : Nat := 8

/-- Modelled from the spec: the capability bit "protocol 4.1". -/
def CLIENT_PROTOCOL_41 : Nat := 512

/-- Modelled from the spec: the capability bit "transactions". -/
def CLIENT_TRANSACTIONS : Nat := 8192

/-- Modelled from the spec: the capability bit "secure connection". -/
def CLIENT_SECURE_CONN : Nat := 32768

/-- Go's `bytes.IndexByte`: index of the first `c` in `b`, or -1. -/
def indexByte (b : List Nat) (c : Nat) : Int :=
  if c ∈ b then (b.indexOf c : Int) else -1

/-- Text of the error `readInitPacket` builds for an old protocol version:
`fmt.Errorf("Unsupported MySQL Protocol Version %d. Protocol Version %d or
higher is required", data[0], MIN_PROTOCOL_VERSION)`. -/
def unsupportedProtocolText (version : Nat) : List Nat :=
  strBytes "Unsupported MySQL Protocol Version " ++ decBytes version ++
    strBytes ". Protocol Version " ++ decBytes MIN_PROTOCOL_VERSION ++
    strBytes " or higher is required"

/-- Text of the error `readInitPacket` builds when the protocol-4.1 bit is
missing. -/
def unsupportedServerText : List Nat :=
  strBytes "SphinxQL-Server does not support required Protocol 41+"

/-- `readInitPacket`. `err` is the named result: it is assigned, not returned,
when the version is too old and when the protocol-4.1 bit is missing. The
slices `data[pos:pos+8]`, `data[pos:pos+2]` and `data[pos:pos+12]` are
run-time panics when they reach beyond the packet. -/
def readInitPacket (mc : sphinxqlConn) : Run (Option Err × sphinxqlConn) :=
  match readPacket mc with
  | (.error e, mc1) => .ret (some e, mc1)
  | (.ok data, mc1) =>
    let err0 : Option Err :=
      if data.getD 0 0 < MIN_PROTOCOL_VERSION then
        some (Err.errorf (unsupportedProtocolText (data.getD 0 0)))
      else none
    let pos := (1 + indexByte (data.drop 1) 0x00 + 1 + 4).toNat
    if data.length < pos + 8 then .panic
    else
      let mc2 := { mc1 with cipher := mc1.cipher ++ (data.drop pos).take 8 }
      let pos := pos + (8 + 1)
      if data.length < pos + 2 then .panic
      else
        let mc3 := { mc2 with flags := data.getD pos 0 ||| data.getD (pos + 1) 0 <<< 8 }
        let err1 : Option Err :=
          if mc3.flags &&& CLIENT_PROTOCOL_41 = 0 then some (Err.errorf unsupportedServerText)
          else err0
        let pos := pos + 2
        if data.length > pos then
          let mc4 := { mc3 with charset := data.getD pos 0 }
          let pos := pos + (1 + 2 + 2 + 1 + 10)
          if data.length < pos + 12 then .panic
          else
            let mc5 := { mc4 with cipher := mc4.cipher ++ (data.drop pos).take 12 }
            if data.getD (data.length - 1) 0 = 0 then .ret (err1, mc5)
            else .ret (some Err.errMalformPkt, mc5)
        else .ret (err1, mc3)

/-- `writeAuthPacket`. `scramblePassword` (`utils.go`, not among the files) is
a parameter. The buffer `make([]byte, pktLen+4)` is written front to back and
is exactly as long as what is put into it, the bytes never assigned
(`data[11]`, the filler, the two terminators) keeping their zero. -/
def writeAuthPacket (scramblePassword : List Nat → List Nat → List Nat) (mc : sphinxqlConn) :
    Option Err × sphinxqlConn :=
  let clientFlags :=
    CLIENT_PROTOCOL_41 ||| CLIENT_SECURE_CONN ||| CLIENT_LONG_PASSWORD ||| CLIENT_TRANSACTIONS
  let clientFlags :=
    if mc.flags &&& CLIENT_LONG_FLAG > 0 then clientFlags ||| CLIENT_LONG_FLAG else clientFlags
  let scrambleBuff := scramblePassword mc.cipher mc.cfg.passwd
  let mc1 := { mc with cipher := [] }
  let pktLen := 4 + 4 + 1 + 23 + mc1.cfg.user.length + 1 + 1 + scrambleBuff.length
  let clientFlags :=
    if mc1.cfg.dbname.length > 0 then clientFlags ||| CLIENT_CONNECT_WITH_DB else clientFlags
  let pktLen := if mc1.cfg.dbname.length > 0 then pktLen + (mc1.cfg.dbname.length + 1) else pktLen
  let data :=
    [pktLen % 256, (pktLen >>> 8) % 256, (pktLen >>> 16) % 256, mc1.sequence,
      clientFlags % 256, (clientFlags >>> 8) % 256, (clientFlags >>> 16) % 256,
      (clientFlags >>> 24) % 256,
      0xff, 0xff, 0xff, 0x00,
      mc1.charset] ++ List.replicate 23 0 ++
    mc1.cfg.user ++ [0x00] ++
    [scrambleBuff.length % 256] ++ scrambleBuff ++
    (if mc1.cfg.dbname.length > 0 then mc1.cfg.dbname ++ [0x00] else [])
  writePacket data mc1

/-- `readResultOK`. -/
def readResultOK (mc : sphinxqlConn) : Run (Option Err × sphinxqlConn) :=
  match readPacket mc with
  | (.error e, mc1) => .ret (some e, mc1)
  | (.ok data, mc1) =>
    if data.getD 0 0 = 0 then
      match handleOkPacket data mc1 with
      | .ret mc2 => .ret (none, mc2)
      | .panic => .panic
    else if data.getD 0 0 = 254 then .ret (some Err.errOldPassword, mc1)
    else
      match handleErrorPacket data with
      | .ret e => .ret (some e, mc1)
      | .panic => .panic

/-- The `sphinxqlStmt` struct; `mc` tells whether the pointer to the session
is set (`Close` clears it). -/
structure sphinxqlStmt where
  mc : Bool
  query : List Nat
deriving DecidableEq, Repr

/-- `sphinxqlConn.Prepare`. -/
def Prepare (query : List Nat) (mc : sphinxqlConn) : (sphinxqlStmt × Option Err) × sphinxqlConn :=
  (({ mc := true, query := query }, none), mc)

/-- `sphinxqlStmt.Exec`: `stmt.mc.Exec(stmt.query, args)`. On a nil `stmt.mc`
the method still runs; it dereferences the session only when `args` is
empty. -/
def sphinxqlStmt.Exec (stmt : sphinxqlStmt) (args : List Value) (mc : sphinxqlConn) :
    Run ((Option sphinxqlResult × Option Err) × sphinxqlConn) :=
  if stmt.mc then Sphinxql.Exec stmt.query args mc
  else if args.length = 0 then .panic
  else .ret ((none, some (Err.errorf (strBytes "args not supported"))), mc)

/-- `sphinxqlStmt.Query`: `stmt.mc.Query(stmt.query, args)`, with the same
behaviour on a nil `stmt.mc`. -/
def sphinxqlStmt.Query (stmt : sphinxqlStmt) (args : List Value) (mc : sphinxqlConn) :
    Run ((Option sphinxqlRows × Option Err) × sphinxqlConn) :=
  if stmt.mc then Sphinxql.Query stmt.query args mc
  else if args.length = 0 then .panic
  else .ret ((none, some (Err.errorf (strBytes "args not supported"))), mc)

/-! ## Vocabulary of the statements -/

/-- A session with nothing written, the given unread input and the given
sequence counter. -/
def sessionOn (pending : List Nat) (seq : Nat) : sphinxqlConn :=
  { cfg := ⟨[], [], []⟩, flags := 0, charset := 0, cipher := [], netConn := ⟨[], none⟩,
    buf := ⟨pending⟩, protocol := 0, sequence := seq, affectedRows := 0, insertId := 0 }

/-- The bytes of one packet on the wire: 3-byte little-endian length, sequence
byte, payload. -/
def wirePacket (seq : Nat) (payload : List Nat) : List Nat :=
  [payload.length % 256, (payload.length >>> 8) % 256, (payload.length >>> 16) % 256, seq] ++
    payload

/-- `bs` is a length-encoded integer of value `v`, in any of its four widths. -/
def IsLenEncInt (bs : List Nat) (v : Nat) : Prop :=
  match bs with
  | [] => False
  | b0 :: t =>
    (b0 < 0xfb ∧ t = [] ∧ v = b0) ∨ (b0 = 0xfc ∧ t.length = 2 ∧ v = leValue t) ∨
    (b0 = 0xfd ∧ t.length = 3 ∧ v = leValue t) ∨ (b0 = 0xfe ∧ t.length = 8 ∧ v = leValue t)

instance (bs : List Nat) (v : Nat) : Decidable (IsLenEncInt bs v) := by
  unfold IsLenEncInt; cases bs <;> infer_instance

/-- The 5-byte end marker (EOF packet): 0xFE, warning count, status flags. -/
def eofPacket : List Nat := [0xfe, 0, 0, 2, 0]

/-- The error packet of scenario C: 0xFF, code 1064 (`28 04`), the marker `#`
with the SQL state "42000", then the message "syntax error". -/
def scenarioCError : List Nat :=
  [255, 0x28, 0x04, 35, 52, 50, 48, 48, 48] ++ strBytes "syntax error"

/-- A success packet with affected-row count 5 and insert id 7, followed by
status flags and warning count. -/
def okPacket57 : List Nat := [0, 5, 7, 2, 0, 0, 0]

/-- A success packet whose affected-row count is `2^63`, in the 8-byte form,
with insert id 0. -/
def okPacketHuge : List Nat := [0, 0xfe, 0, 0, 0, 0, 0, 0, 0, 0x80, 0, 2, 0, 0, 0]

/-- A column-definition packet for a column called `nm`: catalog "def", empty
database, table and original table, the name, empty original name, filler
0x0c, charset 33, length 10, field type 0xfd, flags 1, decimals 0, filler. -/
def columnPacket (nm : List Nat) : List Nat :=
  [3, 100, 101, 102, 0, 0, 0] ++ [nm.length] ++ nm ++
    [0, 0x0c, 33, 0, 10, 0, 0, 0, 0xfd, 1, 0, 0, 0, 0]

/-- The consumer of a row stream: `n` successive calls of `Next`, each given
the slots the previous call left. Result: what each call returned (slots and
error), and the stream and session after the last one. -/
def nextTimes : Nat → sphinxqlRows → List Value → sphinxqlConn →
    List (List Value × Option Err) × (sphinxqlRows × sphinxqlConn)
  | 0, rows, _, mc => ([], (rows, mc))
  | n + 1, rows, dest, mc =>
    match rows.Next dest mc with
    | ((r, rows1), mc1) =>
      match nextTimes n rows1 r.1 mc1 with
      | (rs, fin) => (r :: rs, fin)

/-- The response of scenario B as it follows the column count: the
definitions of "id" and "name", the end marker, the rows ("1", "alice") and
("2", NULL), the end marker; sequence numbers 2 to 7. -/
def scenarioBStream : List Nat :=
  wirePacket 2 (columnPacket (strBytes "id")) ++ wirePacket 3 (columnPacket (strBytes "name")) ++
    wirePacket 4 eofPacket ++
    wirePacket 5 ([1, 49] ++ [5] ++ strBytes "alice") ++ wirePacket 6 [1, 50, 0xfb] ++
    wirePacket 7 eofPacket

/-- `bs` is the length-encoded string field that holds `v`: the NULL sentinel
0xFB for `nil`, otherwise a length-encoded integer (the length) followed by
that many bytes. -/
def IsField (bs : List Nat) (v : Value) : Prop :=
  match v with
  | none => bs = [0xfb]
  | some s => ∃ pre, IsLenEncInt pre s.length ∧ bs = pre ++ s

/-- The packets `ps` on the wire, one after the other, numbered from `seq` on
(modulo 256). -/
def wireStream : Nat → List (List Nat) → List Nat
  | _, [] => []
  | seq, p :: ps => wirePacket seq p ++ wireStream ((seq + 1) % 256) ps

/-- `data` is a well-formed column-definition packet describing `f`: six
length-encoded strings, the fifth being the name; 7 bytes of filler, charset
and length; the field type; the two flag bytes, little-endian; then whatever
follows (decimals, filler, default value). -/
def IsColumnPacket (data : List Nat) (f : sphinxqlField) : Prop :=
  ∃ (e1 e2 e3 e4 en e6 : List Nat) (v1 v2 v3 v4 v6 : Value) (fixed : List Nat)
    (fl0 fl1 : Nat) (tl : List Nat),
    IsField e1 v1 ∧ IsField e2 v2 ∧ IsField e3 v3 ∧ IsField e4 v4 ∧
    IsField en (some f.name) ∧ IsField e6 v6 ∧
    fixed.length = 7 ∧ fl0 < 256 ∧ f.flags = fl0 + 256 * fl1 ∧
    data = e1 ++ (e2 ++ (e3 ++ (e4 ++ (en ++ (e6 ++ (fixed ++ (f.fieldType :: fl0 :: fl1 :: tl)))))))

/-- The capability bit-set the client is to request: protocol 4.1, secure
connection, long password and transactions always; long flag when the server
flags have it; connect-with-database when a database name is configured. -/
def authCapability (serverFlags : Nat) (dbname : List Nat) : Nat :=
  CLIENT_PROTOCOL_41 + CLIENT_SECURE_CONN + CLIENT_LONG_PASSWORD + CLIENT_TRANSACTIONS +
    (if serverFlags &&& CLIENT_LONG_FLAG ≠ 0 then CLIENT_LONG_FLAG else 0) +
    (if dbname ≠ [] then CLIENT_CONNECT_WITH_DB else 0)

/-- What follows the header in an authentication packet with capability
bit-set `cf`, charset `c`, user `u`, scramble-length byte `n`, scramble buffer
`b` and database name `d`: the 4 little-endian capability bytes, the maximum
packet size `FF FF FF 00`, the charset, 23 zero bytes, the user and a zero
byte, the length byte and the scramble buffer, and, for a non-empty `d`, the
database name and a zero byte. -/
def authBody (cf c : Nat) (u : List Nat) (n : Nat) (b d : List Nat) : List Nat :=
  [cf % 256, (cf >>> 8) % 256, (cf >>> 16) % 256, (cf >>> 24) % 256] ++
    [0xff, 0xff, 0xff, 0x00] ++ [c] ++ List.replicate 23 0 ++ u ++ [0x00] ++ [n] ++ b ++
    (if d ≠ [] then d ++ [0x00] else [])

/-- The bytes a call has added to the transport. -/
def newlyWritten (before after : sphinxqlConn) : List Nat :=
  after.netConn.written.drop before.netConn.written.length

/-- The 4-byte little-endian capability field of an authentication packet
(bytes 4 to 7, right after the header). -/
def capabilityField (packet : List Nat) : Nat := leValue ((packet.drop 4).take 4)

/-- A session as it stands between handshake and authentication: user "AB",
the given database name, server flags and charset as read from the handshake,
a 20-byte salt, one packet read (sequence counter 1). -/
def authSession (serverFlags : Nat) (dbname : List Nat) : sphinxqlConn :=
  { sessionOn [] 1 with
    cfg := ⟨[65, 66], [80], dbname⟩, flags := serverFlags, charset := 33,
    cipher := List.replicate 20 7 }

/-- A stand-in for `scramblePassword`: a fixed 3-byte buffer for a non-empty
password, the empty buffer for an empty one. -/
def sampleScramble (_cipher password : List Nat) : List Nat :=
  if password = [] then [] else [1, 2, 3]

/-- A handshake packet: protocol version, server version and its terminating
zero byte, connection id, first salt segment, filler byte (any value: the
reader steps over it without looking), the two capability bytes (low byte
first), and whatever follows them. -/
def handshakePacket (version : Nat) (serverVersion connId salt1 : List Nat)
    (filler fl0 fl1 : Nat) (more : List Nat) : List Nat :=
  [version] ++ serverVersion ++ [0] ++ connId ++ salt1 ++ [filler] ++ [fl0, fl1] ++ more

/-- A handshake packet of server "2.0", connection id 1, salt `0B .. 12`
and `1F .. 2A`, filler byte 0, charset 33, with the given protocol version,
capability bytes and final byte. -/
def sampleHandshake (version fl0 fl1 last : Nat) : List Nat :=
  handshakePacket version (strBytes "2.0") [1, 0, 0, 0] [11, 12, 13, 14, 15, 16, 17, 18] 0 fl0 fl1
    ([33] ++ [2, 0] ++ [0, 0] ++ [21] ++ List.replicate 10 0 ++
      [31, 32, 33, 34, 35, 36, 37, 38, 39, 40, 41, 42] ++ [last])

/-- The handshake packet of `sampleHandshake` (version 10, capability bytes
`FF F7`, final byte zero) with the given filler byte in place of 0. -/
def fillerHandshake (filler : Nat) : List Nat :=
  handshakePacket 10 (strBytes "2.0") [1, 0, 0, 0] [11, 12, 13, 14, 15, 16, 17, 18] filler 0xff 0xf7
    ([33] ++ [2, 0] ++ [0, 0] ++ [21] ++ List.replicate 10 0 ++
      [31, 32, 33, 34, 35, 36, 37, 38, 39, 40, 41, 42] ++ [0])

/-! ## Framing lemmas -/

theorem buffer_read_append (xs ys : List Nat) :
    buffer.read ⟨xs ++ ys⟩ xs.length = (.ok xs, ⟨ys⟩) := by
  simp [buffer.read]

theorem or_shift8 (a b : Nat) (ha : a < 256) : a ||| b <<< 8 = a + 256 * b := by
  have := Nat.mul_add_lt_is_or (i := 8) (b := a) (by simpa using ha) b
  rw [Nat.lor_comm, Nat.shiftLeft_eq, Nat.mul_comm b, ← this]; omega

theorem pktLenOf_eq (b0 b1 b2 : Nat) (h0 : b0 < 256) (h1 : b1 < 256) :
    pktLenOf b0 b1 b2 = b0 + 256 * b1 + 65536 * b2 := by
  unfold pktLenOf
  have e1 : b0 ||| b1 <<< 8 = b0 + 256 * b1 := or_shift8 b0 b1 h0
  have h : b0 + 256 * b1 < 2 ^ 16 := by omega
  have := Nat.mul_add_lt_is_or (i := 16) (b := b0 + 256 * b1) h b2
  rw [e1, Nat.lor_comm, Nat.shiftLeft_eq, Nat.mul_comm b2, ← this]; omega

theorem pktLenOf_bytes (L : Nat) (h : L < 2 ^ 24) :
    pktLenOf (L % 256) ((L >>> 8) % 256) ((L >>> 16) % 256) = L := by
  rw [pktLenOf_eq _ _ _ (Nat.mod_lt _ (by decide)) (Nat.mod_lt _ (by decide))]
  simp only [Nat.shiftRight_eq_div_pow]
  omega

theorem readPacket_header (mc : sphinxqlConn) (b0 b1 b2 s : Nat) (tl : List Nat)
    (hin : mc.buf.pending = b0 :: b1 :: b2 :: s :: tl) :
    readPacket mc =
      if pktLenOf b0 b1 b2 < 1 then (.error Err.ErrBadConn, { mc with buf := ⟨tl⟩ })
      else if s ≠ mc.sequence then
        if s > mc.sequence then (.error Err.errPktSyncMul, { mc with buf := ⟨tl⟩ })
        else (.error Err.errPktSync, { mc with buf := ⟨tl⟩ })
      else
        match (buffer.read ⟨tl⟩ (pktLenOf b0 b1 b2)) with
        | (.ok data, b2) => (.ok data, { mc with sequence := (mc.sequence + 1) % 256, buf := b2 })
        | (.error _, b2) =>
          (.error Err.ErrBadConn, { mc with sequence := (mc.sequence + 1) % 256, buf := b2 }) := by
  unfold readPacket
  simp [buffer.read, hin]

/-- Reading a well-framed packet that carries the expected sequence number. -/
theorem readPacket_wirePacket (mc : sphinxqlConn) (payload rest : List Nat)
    (h1 : 1 ≤ payload.length) (h2 : payload.length < 2 ^ 24)
    (hin : mc.buf.pending = wirePacket mc.sequence payload ++ rest) :
    readPacket mc =
      (.ok payload, { mc with sequence := (mc.sequence + 1) % 256, buf := ⟨rest⟩ }) := by
  have hin2 : mc.buf.pending = (payload.length % 256) :: ((payload.length >>> 8) % 256) ::
      ((payload.length >>> 16) % 256) :: mc.sequence :: (payload ++ rest) := by
    simpa [wirePacket] using hin
  rw [readPacket_header mc _ _ _ _ _ hin2, pktLenOf_bytes _ h2, buffer_read_append]
  have : ¬ payload.length < 1 := by omega
  simp [this]

theorem take_append_len (t tl : List Nat) (n : Nat) (h : t.length = n) :
    (t ++ tl).take n = t := by
  subst h; simp

theorem isLenEncInt_decode (bs : List Nat) (v : Nat) (tl : List Nat) (h : IsLenEncInt bs v) :
    readLengthEncodedInteger (bs ++ tl) = .ok (v, false, bs.length) := by
  cases bs with
  | nil => exact absurd h (by simp [IsLenEncInt])
  | cons b0 t =>
    simp only [IsLenEncInt] at h
    rcases h with ⟨h1, h2, h3⟩ | ⟨h1, h2, h3⟩ | ⟨h1, h2, h3⟩ | ⟨h1, h2, h3⟩
    · subst h2; subst h3; simp [readLengthEncodedInteger, h1]
    · subst h1; subst h3
      have hl : 2 ≤ (t ++ tl).length := by simp; omega
      simp [readLengthEncodedInteger, hl, take_append_len t tl 2 h2, h2]
    · subst h1; subst h3
      have hl : 3 ≤ (t ++ tl).length := by simp; omega
      simp [readLengthEncodedInteger, hl, take_append_len t tl 3 h2, h2]
    · subst h1; subst h3
      have hl : 8 ≤ (t ++ tl).length := by simp; omega
      simp [readLengthEncodedInteger, hl, take_append_len t tl 8 h2, h2]

/-! ## Writing -/

theorem writePacket_success (data : List Nat) (mc : sphinxqlConn)
    (hw : (writePacket data mc).1 = none) :
    writePacket data mc =
      (none, { mc with sequence := (mc.sequence + 1) % 256,
                       netConn := (mc.netConn.Write data).2 }) ∧
    (mc.netConn.Write data).2.written = mc.netConn.written ++ data := by
  unfold writePacket at hw ⊢
  unfold NetConn.Write at hw ⊢
  cases hr : mc.netConn.room with
  | none => simp [hr]
  | some r =>
    simp only [hr] at hw ⊢
    by_cases h : data.length ≤ r
    · simp [h]
    · simp [h] at hw

theorem writeCommandPacketStr_success (c : Nat) (s : List Nat) (mc : sphinxqlConn)
    (hw : (writeCommandPacketStr c s mc).1 = none) :
    ∃ nc : NetConn, nc.written = mc.netConn.written ++ wirePacket 0 (c :: s) ∧
      writeCommandPacketStr c s mc = (none, { mc with sequence := 1, netConn := nc }) := by
  unfold writeCommandPacketStr at hw ⊢
  have h := writePacket_success _ _ hw
  refine ⟨_, ?_, h.1⟩
  rw [h.2]
  simp [wirePacket, Nat.add_comm]

/-! ## C2 -/

/-- C2: for a session expecting sequence number `e = mc.sequence` and an
incoming packet with declared length at least 1, a complete body and sequence
byte `s`: when `s = e` the body is returned and the counter becomes
`(e+1) mod 256`; when `s > e` the read fails with `errPktSyncMul`; when
`s < e` it fails with the distinct `errPktSync`; on a mismatch nothing is
returned and the counter stays `e`. -/
theorem readPacket_sequence_check (mc : sphinxqlConn) (b0 b1 b2 s : Nat) (body rest : List Nat)
    (hin : mc.buf.pending = [b0, b1, b2, s] ++ body ++ rest)
    (hlen : body.length = pktLenOf b0 b1 b2) (hpos : 1 ≤ pktLenOf b0 b1 b2) :
    (s = mc.sequence →
      readPacket mc =
        (.ok body, { mc with sequence := (mc.sequence + 1) % 256, buf := ⟨rest⟩ })) ∧
    (mc.sequence < s →
      (readPacket mc).1 = .error Err.errPktSyncMul ∧ (readPacket mc).2.sequence = mc.sequence) ∧
    (s < mc.sequence →
      (readPacket mc).1 = .error Err.errPktSync ∧ (readPacket mc).2.sequence = mc.sequence) ∧
    Err.errPktSyncMul ≠ Err.errPktSync := by
  have hin2 : mc.buf.pending = b0 :: b1 :: b2 :: s :: (body ++ rest) := by simpa using hin
  rw [readPacket_header mc b0 b1 b2 s _ hin2]
  have h1 : ¬ pktLenOf b0 b1 b2 < 1 := by omega
  refine ⟨?_, ?_, ?_, by decide⟩
  · intro hs
    rw [← hlen, buffer_read_append]
    simp [h1, hs, hlen]
  · intro hs
    have : s ≠ mc.sequence := by omega
    simp [h1, this, hs]
  · intro hs
    have : s ≠ mc.sequence := by omega
    have h2 : ¬ s > mc.sequence := by omega
    simp [h1, this, h2]

/-- Witness of C2: a 3-byte packet read with the expected, a larger and a
smaller sequence byte. -/
theorem readPacket_sequence_check_witness :
    (readPacket (sessionOn [3, 0, 0, 255, 10, 11, 12, 99] 255) =
        (.ok [10, 11, 12],
          { sessionOn [3, 0, 0, 255, 10, 11, 12, 99] 255 with sequence := 0, buf := ⟨[99]⟩ })) ∧
    ((readPacket (sessionOn [3, 0, 0, 7, 10, 11, 12, 99] 5)).1 = .error Err.errPktSyncMul ∧
      (readPacket (sessionOn [3, 0, 0, 7, 10, 11, 12, 99] 5)).2.sequence = 5) ∧
    ((readPacket (sessionOn [3, 0, 0, 4, 10, 11, 12, 99] 5)).1 = .error Err.errPktSync ∧
      (readPacket (sessionOn [3, 0, 0, 4, 10, 11, 12, 99] 5)).2.sequence = 5) :=
  ⟨(readPacket_sequence_check (sessionOn [3, 0, 0, 255, 10, 11, 12, 99] 255) 3 0 0 255
      [10, 11, 12] [99] rfl (by decide) (by decide)).1 rfl,
   (readPacket_sequence_check (sessionOn [3, 0, 0, 7, 10, 11, 12, 99] 5) 3 0 0 7
      [10, 11, 12] [99] rfl (by decide) (by decide)).2.1 (by decide),
   (readPacket_sequence_check (sessionOn [3, 0, 0, 4, 10, 11, 12, 99] 5) 3 0 0 4
      [10, 11, 12] [99] rfl (by decide) (by decide)).2.2.1 (by decide)⟩

/-! ## C9 -/

/-- C9: packet round trip. For a command byte `c` and a string `s` with
`1 + len(s) ≤ 2^24 - 1`, the bytes a successful `writeCommandPacketStr c s`
adds to the transport, fed to `readPacket` on a session expecting sequence
number 0, come back as exactly the payload `c :: s`; the reader consumes the
whole frame and nothing of what follows it, and its counter becomes 1. -/
theorem writeCommandPacketStr_readPacket_roundtrip (c : Nat) (s : List Nat)
    (wmc rmc : sphinxqlConn) (rest : List Nat)
    (hlen : 1 + s.length ≤ 2 ^ 24 - 1)
    (hw : (writeCommandPacketStr c s wmc).1 = none)
    (hseq : rmc.sequence = 0)
    (hin : rmc.buf.pending =
      (writeCommandPacketStr c s wmc).2.netConn.written.drop wmc.netConn.written.length ++ rest) :
    readPacket rmc = (.ok (c :: s), { rmc with sequence := 1, buf := ⟨rest⟩ }) := by
  obtain ⟨nc, hnc, heq⟩ := writeCommandPacketStr_success c s wmc hw
  rw [heq] at hin
  simp only [hnc, List.drop_left] at hin
  have h := readPacket_wirePacket rmc (c :: s) rest (by simp)
    (by simp only [List.length_cons]; omega) (by rw [hseq]; exact hin)
  rw [h, hseq]

/-- Witness of C9: the frame of command 3 with argument "AB". -/
theorem writeCommandPacketStr_readPacket_roundtrip_witness :
    (writeCommandPacketStr 3 [65, 66] (sessionOn [] 9)).2.netConn.written = [3, 0, 0, 0, 3, 65, 66] ∧
    readPacket (sessionOn [3, 0, 0, 0, 3, 65, 66, 77] 0) =
      (.ok [3, 65, 66], { sessionOn [3, 0, 0, 0, 3, 65, 66, 77] 0 with
        sequence := 1, buf := ⟨[77]⟩ }) :=
  ⟨by decide,
   writeCommandPacketStr_readPacket_roundtrip 3 [65, 66] (sessionOn [] 9)
    (sessionOn [3, 0, 0, 0, 3, 65, 66, 77] 0) [77] (by decide) (by decide) rfl (by decide)⟩

/-! ## C3 -/

/-- C3 (code evaluated at the failing input): `writeCommandPacket` for the quit
command puts `05 00 00 00 01` on the wire: the header declares 5 body bytes
while a single byte, the command, follows it. A reader of that frame waits
for a 5-byte body and fails when the stream ends after the command byte. -/
theorem writeCommandPacket_declared_length :
    writeCommandPacket COM_QUIT (sessionOn [] 7) =
      (none, { sessionOn [] 7 with sequence := 1, netConn := ⟨[5, 0, 0, 0, 1], none⟩ }) ∧
    pktLenOf 5 0 0 = 5 ∧ ([COM_QUIT] : List Nat).length = 1 ∧
    (readPacket (sessionOn [5, 0, 0, 0, 1] 0)).1 = .error Err.ErrBadConn :=
  ⟨rfl, rfl, rfl, rfl⟩

/-- The two other command shapes frame their payload correctly: the bytes
written are the frame of `c :: s`, respectively of `c` followed by the four
little-endian bytes of `v`, with sequence number 0, and the counter ends at 1. -/
theorem writeCommandPacket_other_shapes (c v : Nat) (s : List Nat) (mc : sphinxqlConn)
    (hroom : mc.netConn.room = none) :
    writeCommandPacketStr c s mc =
      (none, { mc with sequence := 1,
                       netConn := ⟨mc.netConn.written ++ wirePacket 0 (c :: s), none⟩ }) ∧
    writeCommandPacketUint32 c v mc =
      (none, { mc with sequence := 1,
                       netConn := ⟨mc.netConn.written ++
                         wirePacket 0 [c, v % 256, (v >>> 8) % 256, (v >>> 16) % 256,
                           (v >>> 24) % 256], none⟩ }) := by
  constructor
  · simp [writeCommandPacketStr, writePacket, NetConn.Write, hroom, wirePacket, Nat.add_comm]
  · simp [writeCommandPacketUint32, writePacket, NetConn.Write, hroom, wirePacket]

/-! ## C7 -/

theorem handleErrorPacket_long (data : List Nat) (h0 : data.head? = some 255)
    (h9 : 9 ≤ data.length) (hb : data.getD 1 0 < 256) :
    handleErrorPacket data =
      .ret (Err.errorf (serverErrorText (data.getD 1 0 + 256 * data.getD 2 0) (data.drop 9))) := by
  cases data with
  | nil => simp at h0
  | cons d0 t =>
    simp only [List.head?_cons, Option.some.injEq] at h0
    subst h0
    have h3 : ¬ (255 :: t).length < 3 := by omega
    have h9b : ¬ (255 :: t).length < 9 := by omega
    simp only [handleErrorPacket, h3, h9b, or_shift8 _ _ hb]
    simp

theorem readResultSetHeaderPacket_of_packet (mc mc1 : sphinxqlConn) (data : List Nat)
    (hp : readPacket mc = (.ok data, mc1)) :
    readResultSetHeaderPacket mc =
      if data.getD 0 0 = 0 then
        match handleOkPacket data mc1 with
        | .ret mc2 => .ret ((0, none), mc2)
        | .panic => .panic
      else if data.getD 0 0 = 255 then
        match handleErrorPacket data with
        | .ret e => .ret ((0, some e), mc1)
        | .panic => .panic
      else
        match readLengthEncodedInteger data with
        | .error e => .ret ((0, some e), mc1)
        | .ok (num, _, n) =>
          if n = data.length then .ret ((toInt64 num, none), mc1)
          else .ret ((0, some Err.errMalformPkt), mc1) := by
  unfold readResultSetHeaderPacket
  rw [hp]

theorem head_getD (data : List Nat) (b : Nat) (h : data.head? = some b) : data.getD 0 0 = b := by
  cases data with
  | nil => simp at h
  | cons d0 t => simpa using h

/-- The first response packet of a command, as the session sees it once the
command has been written: sequence number 1 on the wire. -/
theorem response_packet (q : List Nat) (mc : sphinxqlConn) (data rest : List Nat)
    (hw : (writeCommandPacketStr COM_QUERY q mc).1 = none)
    (h1 : 1 ≤ data.length) (h2 : data.length < 2 ^ 24)
    (hin : mc.buf.pending = wirePacket 1 data ++ rest) :
    ∃ mc1, writeCommandPacketStr COM_QUERY q mc = (none, mc1) ∧
      readPacket mc1 = (.ok data, { mc1 with sequence := 2, buf := ⟨rest⟩ }) ∧
      mc1.sequence = 1 ∧ mc1.affectedRows = mc.affectedRows ∧ mc1.insertId = mc.insertId := by
  obtain ⟨nc, _, heq⟩ := writeCommandPacketStr_success COM_QUERY q mc hw
  refine ⟨_, heq, ?_, rfl, rfl, rfl⟩
  exact readPacket_wirePacket _ data rest h1 h2 (by simpa using hin)

/-- C7: for a packet of at least 9 bytes whose first byte is 0xFF,
`handleErrorPacket` returns the error whose text is the bytes of "Error ",
the decimal digits of the code `byte1 + 256*byte2`, the bytes of ": " and the
packet's bytes from offset 9 to the end; and when such a packet is the first
response to a command (sequence number 1, command written successfully),
`exec` fails with that error and `Query` fails with it and returns no row
stream. -/
theorem error_packet_surfaces (data : List Nat) (h0 : data.head? = some 255)
    (h9 : 9 ≤ data.length) (hb : data.getD 1 0 < 256) :
    handleErrorPacket data =
      .ret (Err.errorf ([69, 114, 114, 111, 114, 32] ++
        (Nat.toDigits 10 (data.getD 1 0 + 256 * data.getD 2 0)).map Char.toNat ++
        [58, 32] ++ data.drop 9)) ∧
    ∀ (q : List Nat) (mc : sphinxqlConn) (rest : List Nat),
      (writeCommandPacketStr COM_QUERY q mc).1 = none →
      data.length < 2 ^ 24 →
      mc.buf.pending = wirePacket 1 data ++ rest →
      (∃ mc2, exec q mc = .ret (some (Err.errorf ([69, 114, 114, 111, 114, 32] ++
        (Nat.toDigits 10 (data.getD 1 0 + 256 * data.getD 2 0)).map Char.toNat ++
        [58, 32] ++ data.drop 9)), mc2)) ∧
      (∃ mc2, Query q [] mc = .ret ((none, some (Err.errorf ([69, 114, 114, 111, 114, 32] ++
        (Nat.toDigits 10 (data.getD 1 0 + 256 * data.getD 2 0)).map Char.toNat ++
        [58, 32] ++ data.drop 9))), mc2)) := by
  have ht : serverErrorText (data.getD 1 0 + 256 * data.getD 2 0) (data.drop 9) =
      [69, 114, 114, 111, 114, 32] ++
        (Nat.toDigits 10 (data.getD 1 0 + 256 * data.getD 2 0)).map Char.toNat ++
        [58, 32] ++ data.drop 9 := rfl
  have he := handleErrorPacket_long data h0 h9 hb
  rw [ht] at he
  refine ⟨he, ?_⟩
  intro q mc rest hw h2 hin
  obtain ⟨mc1, hw1, hr, -⟩ := response_packet q mc data rest hw (by omega) h2 hin
  have hh := readResultSetHeaderPacket_of_packet mc1 _ data hr
  have hg : data.getD 0 0 = 255 := head_getD data 255 h0
  simp only [hg, he] at hh
  have hh2 : readResultSetHeaderPacket mc1 = .ret ((0, some (Err.errorf
      ([69, 114, 114, 111, 114, 32] ++
        (Nat.toDigits 10 (data.getD 1 0 + 256 * data.getD 2 0)).map Char.toNat ++
        [58, 32] ++ data.drop 9))),
      { mc1 with sequence := 2, buf := ⟨rest⟩ }) := by
    rw [hh]; simp
  constructor
  · exact ⟨{ mc1 with sequence := 2, buf := ⟨rest⟩ }, by simp [exec, hw1, hh2]⟩
  · exact ⟨{ mc1 with sequence := 2, buf := ⟨rest⟩ }, by simp [Query, hw1, hh2]⟩

theorem toInt64_small (n : Nat) (h : n < 2 ^ 63) : toInt64 n = (n : Int) := by
  unfold toInt64
  have h1 : n % 2 ^ 64 = n := Nat.mod_eq_of_lt (by omega)
  rw [h1, if_pos h]

theorem readLengthEncodedInteger_error (data : List Nat) (e : Err)
    (hd : readLengthEncodedInteger data = .error e) : e = Err.errMalformPkt := by
  cases data with
  | nil => simp [readLengthEncodedInteger] at hd; exact hd.symm
  | cons d0 t =>
    simp only [readLengthEncodedInteger] at hd
    split_ifs at hd <;> exact (Except.error.inj hd).symm

theorem handleOkPacket_counts (mc : sphinxqlConn) (a i : Nat) (ea ei tl : List Nat)
    (ha : IsLenEncInt ea a) (hi : IsLenEncInt ei i) :
    handleOkPacket (0 :: (ea ++ ei ++ tl)) mc =
      .ret { mc with affectedRows := a, insertId := i } := by
  unfold handleOkPacket
  have h1 : List.drop 1 (0 :: (ea ++ ei ++ tl)) = ea ++ (ei ++ tl) := by simp
  rw [h1, isLenEncInt_decode ea a _ ha]
  have h2 : List.drop (1 + ea.length) (0 :: (ea ++ ei ++ tl)) = ei ++ tl := by
    rw [Nat.add_comm]; simp
  simp only [h2, isLenEncInt_decode ei i _ hi]

theorem readResultSetHeaderPacket_ok (mc mc1 : sphinxqlConn) (a i : Nat) (ea ei tl : List Nat)
    (hp : readPacket mc = (.ok (0 :: (ea ++ ei ++ tl)), mc1))
    (ha : IsLenEncInt ea a) (hi : IsLenEncInt ei i) :
    readResultSetHeaderPacket mc =
      .ret ((0, none), { mc1 with affectedRows := a, insertId := i }) := by
  rw [readResultSetHeaderPacket_of_packet mc mc1 _ hp, handleOkPacket_counts mc1 a i ea ei tl ha hi]
  simp

theorem toInt64_large (n : Nat) (h1 : 2 ^ 63 ≤ n) (h2 : n < 2 ^ 64) :
    toInt64 n = (n : Int) - 2 ^ 64 := by
  unfold toInt64
  have hm : n % 2 ^ 64 = n := Nat.mod_eq_of_lt h2
  rw [hm, if_neg (by omega)]

/-- A success packet that ends before its two counts: `handleOkPacket` cannot
report it, and neither `readResultSetHeaderPacket` nor `readResultOK`
returns. -/
theorem handleOkPacket_cut_short :
    handleOkPacket [0] (sessionOn [] 2) = .panic ∧
    handleOkPacket [0, 5] (sessionOn [] 2) = .panic ∧
    handleOkPacket [0, 0xfc, 1] (sessionOn [] 2) = .panic ∧
    readResultSetHeaderPacket (sessionOn (wirePacket 1 [0, 5]) 1) = .panic ∧
    readResultOK (sessionOn (wirePacket 1 [0, 5]) 1) = .panic :=
  ⟨rfl, rfl, rfl, rfl, rfl⟩

/-- C4 (counterexample to the claim as stated): the packet `FE 00 00 00 00 00 00 00 80` is, whole, the
length-encoded integer 2^63 (the decoder consumes all 9 bytes), yet the column
count `readResultSetHeaderPacket` returns for it, with no error, is -2^63 and
not 2^63. -/
theorem readResultSetHeaderPacket_count_wraps :
    IsLenEncInt [0xfe, 0, 0, 0, 0, 0, 0, 0, 0x80] (2 ^ 63) ∧
    readLengthEncodedInteger [0xfe, 0, 0, 0, 0, 0, 0, 0, 0x80] = .ok (2 ^ 63, false, 9) ∧
    readResultSetHeaderPacket (sessionOn (wirePacket 1 [0xfe, 0, 0, 0, 0, 0, 0, 0, 0x80]) 1) =
      .ret ((-(2 ^ 63), none), sessionOn [] 2) ∧
    (-(2 ^ 63) : Int) ≠ ((2 ^ 63 : Nat) : Int) := by
  refine ⟨?_, rfl, rfl, by decide⟩
  right; right; right
  exact ⟨rfl, rfl, rfl⟩

/-- C4 (amended): `readResultSetHeaderPacket` classifies the packet it reads
by its first byte. A packet `00 <a> <i> ...` (length-encoded integers `a`, `i`)
gives column count 0, no error, and stores `a` and `i` in the session; a packet
starting with 0xFF gives the error `handleErrorPacket` decodes from it; a
packet with any other first byte is decoded as a length-encoded integer `N`
and, exactly when the decoder consumed the whole packet, gives with no error
the conversion of `N` to a signed 64-bit `int` as column count (the low 64
bits of `N` read in two's complement), which is `N` when `N < 2^63` and
`N - 2^64` when `2^63 ≤ N < 2^64`; in every other case it gives the
malformed-packet error. -/
theorem readResultSetHeaderPacket_classifies (mc mc1 : sphinxqlConn) (data : List Nat)
    (hp : readPacket mc = (.ok data, mc1)) :
    (∀ a i ea ei tl, data = 0 :: (ea ++ ei ++ tl) → IsLenEncInt ea a → IsLenEncInt ei i →
      readResultSetHeaderPacket mc =
        .ret ((0, none), { mc1 with affectedRows := a, insertId := i })) ∧
    (data.head? = some 255 → ∀ e, handleErrorPacket data = .ret e →
      readResultSetHeaderPacket mc = .ret ((0, some e), mc1)) ∧
    (∀ b, data.head? = some b → b ≠ 0 → b ≠ 255 →
      (∀ N isNull, readLengthEncodedInteger data = .ok (N, isNull, data.length) →
        readResultSetHeaderPacket mc =
          .ret ((if N % 2 ^ 64 < 2 ^ 63 then ((N % 2 ^ 64 : Nat) : Int)
                 else ((N % 2 ^ 64 : Nat) : Int) - 2 ^ 64, none), mc1) ∧
        (N < 2 ^ 63 → readResultSetHeaderPacket mc = .ret (((N : Int), none), mc1)) ∧
        (2 ^ 63 ≤ N → N < 2 ^ 64 →
          readResultSetHeaderPacket mc = .ret (((N : Int) - 2 ^ 64, none), mc1))) ∧
      ((¬ ∃ N isNull, readLengthEncodedInteger data = .ok (N, isNull, data.length)) →
        readResultSetHeaderPacket mc = .ret ((0, some Err.errMalformPkt), mc1))) := by
  have hh := readResultSetHeaderPacket_of_packet mc mc1 data hp
  refine ⟨?_, ?_, ?_⟩
  · intro a i ea ei tl hd ha hi
    subst hd
    exact readResultSetHeaderPacket_ok mc mc1 a i ea ei tl hp ha hi
  · intro h255 e he
    rw [hh, head_getD data 255 h255, he]
    simp
  · intro b hb hb0 hb255
    rw [hh, head_getD data b hb]
    simp only [hb0, hb255, if_false]
    constructor
    · intro N isNull hd
      rw [hd]
      refine ⟨?_, ?_, ?_⟩
      · simp only [if_true]
        rfl
      · intro hN
        simp [toInt64_small N hN]
      · intro hN1 hN2
        simp [toInt64_large N hN1 hN2]
    · intro hno
      cases hd : readLengthEncodedInteger data with
      | error e =>
        simp [readLengthEncodedInteger_error data e hd]
      | ok r =>
        obtain ⟨num, isNull, n⟩ := r
        by_cases hn : n = data.length
        · exact absurd ⟨num, isNull, by rw [hd, hn]⟩ hno
        · simp [hn]

/-! ## C8 -/

theorem readPacket_counts (mc : sphinxqlConn) :
    (readPacket mc).2.affectedRows = mc.affectedRows ∧
    (readPacket mc).2.insertId = mc.insertId := by
  unfold readPacket buffer.read
  split_ifs <;> simp
  split_ifs <;> simp

theorem readUntilEOFLoop_counts (fuel : Nat) (mc : sphinxqlConn) :
    (readUntilEOFLoop fuel mc).2.affectedRows = mc.affectedRows ∧
    (readUntilEOFLoop fuel mc).2.insertId = mc.insertId := by
  induction fuel generalizing mc with
  | zero => simp [readUntilEOFLoop]
  | succ n ih =>
    have hp := readPacket_counts mc
    unfold readUntilEOFLoop
    rcases hr : readPacket mc with ⟨r, mc1⟩
    rw [hr] at hp
    cases r with
    | error e => simpa using hp
    | ok data =>
      simp only
      split_ifs
      · have := ih mc1
        exact ⟨this.1.trans hp.1, this.2.trans hp.2⟩
      · simpa using hp

theorem writeCommandPacketStr_fst (c : Nat) (s : List Nat) (mc mc2 : sphinxqlConn)
    (h : mc.netConn = mc2.netConn) :
    (writeCommandPacketStr c s mc).1 = (writeCommandPacketStr c s mc2).1 := by
  unfold writeCommandPacketStr writePacket
  simp only [h]
  rcases (mc2.netConn.Write _) with ⟨⟨n, err⟩, c2⟩
  simp only
  split_ifs <;> rfl

theorem exec_counts_of_other (q : List Nat) (mc : sphinxqlConn) (data rest : List Nat)
    (hw : (writeCommandPacketStr COM_QUERY q mc).1 = none)
    (h1 : 1 ≤ data.length) (h2 : data.length < 2 ^ 24)
    (hin : mc.buf.pending = wirePacket 1 data ++ rest)
    (h0 : data.getD 0 0 ≠ 0) (err : Option Err) (mc2 : sphinxqlConn)
    (he : exec q mc = .ret (err, mc2)) :
    mc2.affectedRows = mc.affectedRows ∧ mc2.insertId = mc.insertId := by
  obtain ⟨mc1, hw1, hr, -, ha, hi⟩ := response_packet q mc data rest hw h1 h2 hin
  have hh := readResultSetHeaderPacket_of_packet mc1 _ data hr
  simp only [h0, if_false] at hh
  unfold exec at he
  rw [hw1] at he
  simp only at he
  have key : ∀ (x : Int) (e : Option Err),
      readResultSetHeaderPacket mc1 = .ret ((x, e), { mc1 with sequence := 2, buf := ⟨rest⟩ }) →
      mc2.affectedRows = mc.affectedRows ∧ mc2.insertId = mc.insertId := by
    intro x e hx
    rw [hx] at he
    simp only at he
    split_ifs at he
    · have c1 := readUntilEOFLoop_counts ((⟨rest⟩ : buffer).pending.length + 1)
        { mc1 with sequence := 2, buf := ⟨rest⟩ }
      unfold readUntilEOF at he
      simp only at he
      rcases hq : readUntilEOFLoop (rest.length + 1) { mc1 with sequence := 2, buf := ⟨rest⟩ }
        with ⟨e1, mc3⟩
      rw [hq] at he c1
      cases e1 with
      | some e1 =>
        simp only [Run.ret.injEq, Prod.mk.injEq] at he
        rw [← he.2]
        exact ⟨c1.1.trans ha, c1.2.trans hi⟩
      | none =>
        simp only [Run.ret.injEq] at he
        have c2 := readUntilEOFLoop_counts (mc3.buf.pending.length + 1) mc3
        rw [he] at c2
        exact ⟨c2.1.trans (c1.1.trans ha), c2.2.trans (c1.2.trans hi)⟩
    · simp only [Run.ret.injEq, Prod.mk.injEq] at he
      rw [← he.2]
      exact ⟨ha, hi⟩
  by_cases h255 : data.getD 0 0 = 255
  · simp only [h255, if_true] at hh
    cases hep : handleErrorPacket data with
    | panic => rw [hep] at hh; rw [hh] at he; cases he
    | ret e => rw [hep] at hh; exact key _ _ hh
  · simp only [h255, if_false] at hh
    cases hd : readLengthEncodedInteger data with
    | error e => rw [hd] at hh; exact key _ _ hh
    | ok r =>
      obtain ⟨num, isNull, n⟩ := r
      rw [hd] at hh
      simp only at hh
      split_ifs at hh
      · exact key _ _ hh
      · exact key _ _ hh


/-- C8 (amended): for a statement executed through `Exec` with no bound
arguments, command written successfully: when the response is the success
packet `00 <a> <i> ...` with length-encoded integers `a` and `i`, `Exec`
succeeds and the session holds `a` and `i` afterwards, for every `a` and `i`
and whatever it held before; the returned result reports the conversions of
`a` and `i` to signed 64-bit integers (the low 64 bits read in two's
complement): `RowsAffected` is `a` when `a < 2^63` and `a - 2^64` when
`2^63 ≤ a < 2^64`, and `LastInsertId` is `i` when `i < 2^63` and `i - 2^64`
when `2^63 ≤ i < 2^64`. When the first response
packet does not start with 0x00 and `Exec` succeeds (a result set, drained),
the result reports 0 and 0. -/
theorem Exec_reports_counts (q : List Nat) (mc : sphinxqlConn)
    (hw : (writeCommandPacketStr COM_QUERY q mc).1 = none) :
    (∀ (a i : Nat) (ea ei tl rest : List Nat),
      IsLenEncInt ea a → IsLenEncInt ei i →
      (0 :: (ea ++ ei ++ tl)).length < 2 ^ 24 →
      mc.buf.pending = wirePacket 1 (0 :: (ea ++ ei ++ tl)) ++ rest →
      ∃ res mc2, Exec q [] mc = .ret ((some res, none), mc2) ∧
        mc2.affectedRows = a ∧ mc2.insertId = i ∧
        res.RowsAffected =
          (if a % 2 ^ 64 < 2 ^ 63 then ((a % 2 ^ 64 : Nat) : Int)
           else ((a % 2 ^ 64 : Nat) : Int) - 2 ^ 64, none) ∧
        res.LastInsertId =
          (if i % 2 ^ 64 < 2 ^ 63 then ((i % 2 ^ 64 : Nat) : Int)
           else ((i % 2 ^ 64 : Nat) : Int) - 2 ^ 64, none) ∧
        (a < 2 ^ 63 → res.RowsAffected = ((a : Int), none)) ∧
        (2 ^ 63 ≤ a → a < 2 ^ 64 → res.RowsAffected = ((a : Int) - 2 ^ 64, none)) ∧
        (i < 2 ^ 63 → res.LastInsertId = ((i : Int), none)) ∧
        (2 ^ 63 ≤ i → i < 2 ^ 64 → res.LastInsertId = ((i : Int) - 2 ^ 64, none))) ∧
    (∀ (data rest : List Nat) (res : sphinxqlResult) (mc2 : sphinxqlConn),
      1 ≤ data.length → data.length < 2 ^ 24 → data.head? ≠ some 0 →
      mc.buf.pending = wirePacket 1 data ++ rest →
      Exec q [] mc = .ret ((some res, none), mc2) →
      res.RowsAffected = (0, none) ∧ res.LastInsertId = (0, none)) := by
  have hw0 : (writeCommandPacketStr COM_QUERY q
      { mc with affectedRows := 0, insertId := 0 }).1 = none := by
    rw [← hw]; exact writeCommandPacketStr_fst _ _ _ _ rfl
  constructor
  · intro a i ea ei tl rest ha hi hlen hin
    obtain ⟨mc1, hw1, hr, -⟩ := response_packet q { mc with affectedRows := 0, insertId := 0 }
      (0 :: (ea ++ ei ++ tl)) rest hw0 (by simp) hlen hin
    have hh := readResultSetHeaderPacket_ok mc1 _ a i ea ei tl hr ha hi
    refine ⟨⟨toInt64 a, toInt64 i⟩,
      { mc1 with sequence := 2, buf := ⟨rest⟩, affectedRows := a, insertId := i }, ?_, rfl, rfl,
      rfl, rfl, ?_, ?_, ?_, ?_⟩
    · simp [Exec, exec, hw1, hh]
    · intro h; simp [sphinxqlResult.RowsAffected, toInt64_small a h]
    · intro h1 h2; simp [sphinxqlResult.RowsAffected, toInt64_large a h1 h2]
    · intro h; simp [sphinxqlResult.LastInsertId, toInt64_small i h]
    · intro h1 h2; simp [sphinxqlResult.LastInsertId, toInt64_large i h1 h2]
  · intro data rest res mc2 h1 h2 h0 hin hE
    have hg : data.getD 0 0 ≠ 0 := by
      cases data with
      | nil => simp at h1
      | cons d0 t => simpa using h0
    unfold Exec at hE
    simp only [List.length_nil, if_true] at hE
    cases he : exec q { mc with affectedRows := 0, insertId := 0 } with
    | panic => rw [he] at hE; cases hE
    | ret r =>
      obtain ⟨err, mc3⟩ := r
      have hc := exec_counts_of_other q { mc with affectedRows := 0, insertId := 0 } data rest
        hw0 h1 h2 hin hg err mc3 he
      rw [he] at hE
      cases err with
      | some e => simp at hE
      | none =>
        simp only [Run.ret.injEq, Prod.mk.injEq, Option.some.injEq, true_and] at hE
        rw [← hE.1.1, hc.1, hc.2]
        exact ⟨rfl, rfl⟩

/-- Witness of C4 (amended): a success packet with counts 5 and 7, the error
packet of scenario C, the one-byte column count 2, the nine-byte encoding of
2^63 (returned as 2^63 - 2^64), a truncated encoding and an encoding followed
by a spare byte, each as the first packet of a session expecting sequence
number 1. -/
theorem readResultSetHeaderPacket_classifies_witness :
    readResultSetHeaderPacket (sessionOn (wirePacket 1 okPacket57) 1) =
      .ret ((0, none), { sessionOn [] 2 with affectedRows := 5, insertId := 7 }) ∧
    readResultSetHeaderPacket (sessionOn (wirePacket 1 scenarioCError) 1) =
      .ret ((0, some (Err.errorf (strBytes "Error 1064: syntax error"))), sessionOn [] 2) ∧
    readResultSetHeaderPacket (sessionOn (wirePacket 1 [2]) 1) =
      .ret ((((2 : Nat) : Int), none), sessionOn [] 2) ∧
    readResultSetHeaderPacket (sessionOn (wirePacket 1 [0xfe, 0, 0, 0, 0, 0, 0, 0, 0x80]) 1) =
      .ret ((((2 ^ 63 : Nat) : Int) - 2 ^ 64, none), sessionOn [] 2) ∧
    readResultSetHeaderPacket (sessionOn (wirePacket 1 [0xfc, 2]) 1) =
      .ret ((0, some Err.errMalformPkt), sessionOn [] 2) ∧
    readResultSetHeaderPacket (sessionOn (wirePacket 1 [2, 0]) 1) =
      .ret ((0, some Err.errMalformPkt), sessionOn [] 2) :=
  ⟨(readResultSetHeaderPacket_classifies (sessionOn (wirePacket 1 okPacket57) 1)
      (sessionOn [] 2) okPacket57 rfl).1 5 7 [5] [7] [2, 0, 0, 0] rfl (by decide) (by decide),
   (readResultSetHeaderPacket_classifies (sessionOn (wirePacket 1 scenarioCError) 1)
      (sessionOn [] 2) scenarioCError rfl).2.1 rfl _ rfl,
   (((readResultSetHeaderPacket_classifies (sessionOn (wirePacket 1 [2]) 1)
      (sessionOn [] 2) [2] rfl).2.2 2 rfl (by decide) (by decide)).1 2 false rfl).2.1
      (by decide),
   (((readResultSetHeaderPacket_classifies
      (sessionOn (wirePacket 1 [0xfe, 0, 0, 0, 0, 0, 0, 0, 0x80]) 1)
      (sessionOn [] 2) [0xfe, 0, 0, 0, 0, 0, 0, 0, 0x80] rfl).2.2 0xfe rfl (by decide)
      (by decide)).1 (2 ^ 63) false (by rfl)).2.2 (by decide) (by decide),
   ((readResultSetHeaderPacket_classifies (sessionOn (wirePacket 1 [0xfc, 2]) 1)
      (sessionOn [] 2) [0xfc, 2] rfl).2.2 0xfc rfl (by decide) (by decide)).2
      (by rintro ⟨num, isNull, h⟩; cases h),
   ((readResultSetHeaderPacket_classifies (sessionOn (wirePacket 1 [2, 0]) 1)
      (sessionOn [] 2) [2, 0] rfl).2.2 2 rfl (by decide) (by decide)).2
      (by rintro ⟨num, isNull, h⟩; cases h)⟩

/-- Witness of C7: scenario C. The error packet with code 1064 (bytes `28 04`)
and message "syntax error" decodes to "Error 1064: syntax error", written out
here byte by byte; as first response, it makes `exec` and `Query` fail with
that error, `Query` returning no rows. -/
theorem error_packet_surfaces_witness :
    handleErrorPacket
        [255, 0x28, 0x04, 35, 52, 50, 48, 48, 48,
          115, 121, 110, 116, 97, 120, 32, 101, 114, 114, 111, 114] =
      .ret (Err.errorf
        [69, 114, 114, 111, 114, 32, 49, 48, 54, 52, 58, 32,
          115, 121, 110, 116, 97, 120, 32, 101, 114, 114, 111, 114]) ∧
    scenarioCError =
      [255, 0x28, 0x04, 35, 52, 50, 48, 48, 48,
        115, 121, 110, 116, 97, 120, 32, 101, 114, 114, 111, 114] ∧
    strBytes "Error 1064: syntax error" =
      [69, 114, 114, 111, 114, 32, 49, 48, 54, 52, 58, 32,
        115, 121, 110, 116, 97, 120, 32, 101, 114, 114, 111, 114] ∧
    (∃ mc2, exec (strBytes "SELEC 1") (sessionOn (wirePacket 1 scenarioCError) 0) =
      .ret (some (Err.errorf (strBytes "Error 1064: syntax error")), mc2)) ∧
    (∃ mc2, Query (strBytes "SELEC 1") [] (sessionOn (wirePacket 1 scenarioCError) 0) =
      .ret ((none, some (Err.errorf (strBytes "Error 1064: syntax error"))), mc2)) :=
  ⟨(error_packet_surfaces scenarioCError rfl (by decide) (by decide)).1, rfl, rfl,
   (error_packet_surfaces scenarioCError rfl (by decide) (by decide)).2 (strBytes "SELEC 1")
      (sessionOn (wirePacket 1 scenarioCError) 0) [] rfl (by decide) rfl⟩

/-- C8 (counterexample to the claim as stated): the success packet whose
affected-row count is the length-encoded integer `a = 2^63` makes `Exec`
report `RowsAffected = -2^63`, not `a`, while the session holds `a`. -/
theorem Exec_rowsAffected_wraps :
    IsLenEncInt [0xfe, 0, 0, 0, 0, 0, 0, 0, 0x80] (2 ^ 63) ∧
    okPacketHuge = 0 :: ([0xfe, 0, 0, 0, 0, 0, 0, 0, 0x80] ++ [0] ++ [2, 0, 0, 0]) ∧
    ∃ res mc2, Exec (strBytes "DELETE") [] (sessionOn (wirePacket 1 okPacketHuge) 0) =
        .ret ((some res, none), mc2) ∧
      res.RowsAffected = (-(2 ^ 63), none) ∧ res.RowsAffected ≠ (2 ^ 63, none) ∧
      mc2.affectedRows = 2 ^ 63 :=
  ⟨by decide, rfl, _, _, rfl, rfl, by decide, rfl⟩

/-- Witness of C8 (amended): counts 5 and 7 are reported and stored over the
stale values 40 and 41; the count 2^63 is stored as it is and reported as
2^63 - 2^64; a result-set response (column count 1, one column definition,
end marker, end marker) leaves the result at 0 and 0. -/
theorem Exec_reports_counts_witness :
    (∃ res mc2, Exec (strBytes "DELETE") []
        { sessionOn (wirePacket 1 okPacket57) 0 with affectedRows := 40, insertId := 41 } =
          .ret ((some res, none), mc2) ∧
        mc2.affectedRows = 5 ∧ mc2.insertId = 7 ∧
        res.RowsAffected = (5, none) ∧ res.LastInsertId = (7, none)) ∧
    (∃ res mc2, Exec (strBytes "DELETE") [] (sessionOn (wirePacket 1 okPacketHuge) 0) =
          .ret ((some res, none), mc2) ∧
        mc2.affectedRows = 2 ^ 63 ∧ mc2.insertId = 0 ∧
        res.RowsAffected = (((2 ^ 63 : Nat) : Int) - 2 ^ 64, none) ∧
        res.LastInsertId = (0, none)) ∧
    (Exec (strBytes "SELECT") []
        { sessionOn (wirePacket 1 [1] ++ wirePacket 2 (columnPacket [105, 100]) ++
            wirePacket 3 eofPacket ++ wirePacket 4 eofPacket) 0 with
          affectedRows := 40, insertId := 41 } =
        .ret ((some ⟨0, 0⟩, none),
          { sessionOn [] 5 with netConn := ⟨wirePacket 0 (COM_QUERY :: strBytes "SELECT"), none⟩ }) ∧
      (⟨0, 0⟩ : sphinxqlResult).RowsAffected = (0, none) ∧
      (⟨0, 0⟩ : sphinxqlResult).LastInsertId = (0, none)) :=
  ⟨match (Exec_reports_counts (strBytes "DELETE")
      { sessionOn (wirePacket 1 okPacket57) 0 with affectedRows := 40, insertId := 41 } rfl).1
      5 7 [5] [7] [2, 0, 0, 0] [] (by decide) (by decide) (by decide) rfl with
    | ⟨res, mc2, h, ha, hi, _, _, r1, _, r2, _⟩ =>
      ⟨res, mc2, h, ha, hi, r1 (by decide), r2 (by decide)⟩,
   match (Exec_reports_counts (strBytes "DELETE") (sessionOn (wirePacket 1 okPacketHuge) 0)
      rfl).1 (2 ^ 63) 0 [0xfe, 0, 0, 0, 0, 0, 0, 0, 0x80] [0] [2, 0, 0, 0] [] (by decide)
      (by decide) (by decide) rfl with
    | ⟨res, mc2, h, ha, hi, _, _, _, r1, r2, _⟩ =>
      ⟨res, mc2, h, ha, hi, r1 (by decide) (by decide), r2 (by decide)⟩,
   rfl,
   (Exec_reports_counts (strBytes "SELECT")
      { sessionOn (wirePacket 1 [1] ++ wirePacket 2 (columnPacket [105, 100]) ++
          wirePacket 3 eofPacket ++ wirePacket 4 eofPacket) 0 with
        affectedRows := 40, insertId := 41 } rfl).2
      [1] (wirePacket 2 (columnPacket [105, 100]) ++ wirePacket 3 eofPacket ++
        wirePacket 4 eofPacket) ⟨0, 0⟩ _ (by decide) (by decide) (by decide)
      rfl rfl⟩

/-! ## C1, C5, C6, C10: the code at the failing inputs -/

/-- C1 (code evaluated at the failing input): the row packet `FB 01 41` holds
the two well-formed fields NULL and "A". `readRow` with two slots returns no
error, stores `nil` in slot 0 and returns at once: slot 1 keeps the value it
had before the call instead of receiving "A". With the NULL in the last
column (`01 41 FB`) both slots are filled, and an empty string (`00`) is
stored as such, not as `nil`. -/
theorem readRow_returns_at_null :
    readLengthEnodedString [0xfb, 1, 65] = .ok (none, true, 1) ∧
    readLengthEnodedString [1, 65] = .ok (some [65], false, 2) ∧
    readRow [some [120], some [121]] (sessionOn (wirePacket 1 [0xfb, 1, 65]) 1) =
      (([none, some [121]], none), sessionOn [] 2) ∧
    readRow [some [120], some [121]] (sessionOn (wirePacket 1 [1, 65, 0xfb]) 1) =
      (([some [65], none], none), sessionOn [] 2) ∧
    readRow [some [120], some [121]] (sessionOn (wirePacket 1 [0, 1, 65]) 1) =
      (([some [], some [65]], none), sessionOn [] 2) :=
  ⟨rfl, rfl, rfl, rfl, rfl⟩

/-- C5 (code evaluated at the failing input): with one column declared and
two well-formed column definitions before the end marker, `readColumns 1`
ends in a run-time panic (`columns[1]` on a slice of length 1) instead of
returning the count-mismatch error. With two or three columns declared for
the same stream it succeeds, respectively returns the mismatch error. -/
theorem readColumns_more_than_declared :
    readColumns 1 (sessionOn (wirePacket 2 (columnPacket (strBytes "id")) ++
      wirePacket 3 (columnPacket (strBytes "name")) ++ wirePacket 4 eofPacket) 2) = .panic ∧
    readColumns 2 (sessionOn (wirePacket 2 (columnPacket (strBytes "id")) ++
      wirePacket 3 (columnPacket (strBytes "name")) ++ wirePacket 4 eofPacket) 2) =
      .ret (([⟨strBytes "id", 0xfd, 1⟩, ⟨strBytes "name", 0xfd, 1⟩], none), sessionOn [] 5) ∧
    readColumns 3 (sessionOn (wirePacket 2 (columnPacket (strBytes "id")) ++
      wirePacket 3 (columnPacket (strBytes "name")) ++ wirePacket 4 eofPacket) 2) =
      .ret (([⟨strBytes "id", 0xfd, 1⟩, ⟨strBytes "name", 0xfd, 1⟩, ⟨[], 0, 0⟩],
        some (columnsCountMismatch 3 3)), sessionOn [] 5) :=
  ⟨rfl, rfl, rfl⟩

/-- C6 (code evaluated at the failing input): `Query` answered by a success
packet returns a row stream with no columns whose `eof` flag is not set. Its
`Next` therefore reads from the connection: with nothing more to read it
fails with `ErrBadConn` rather than reporting `io.EOF`, and so does `Close`;
with a further packet pending, `Next` consumes that packet and moves the
counter from 2 to 3. -/
theorem Query_ok_stream_still_reads :
    (∃ rows mc1,
      Query (strBytes "DELETE") [] (sessionOn (wirePacket 1 okPacket57) 0) =
        .ret ((some rows, none), mc1) ∧
      rows.columns = [] ∧ rows.eof = false ∧ mc1.sequence = 2 ∧ mc1.buf.pending = [] ∧
      (rows.Next [] mc1).1.1.2 = some Err.ErrBadConn ∧
      (rows.Close mc1).1.1 = some Err.ErrBadConn) ∧
    (∃ rows mc1,
      Query (strBytes "DELETE") []
          (sessionOn (wirePacket 1 okPacket57 ++ wirePacket 2 [1, 65]) 0) =
        .ret ((some rows, none), mc1) ∧
      mc1.sequence = 2 ∧ mc1.buf.pending = wirePacket 2 [1, 65] ∧
      (rows.Next [none] mc1).1.1 = ([some [65]], none) ∧
      (rows.Next [none] mc1).2.sequence = 3 ∧ (rows.Next [none] mc1).2.buf.pending = []) :=
  ⟨⟨_, _, rfl, rfl, rfl, rfl, rfl, rfl, rfl⟩, ⟨_, _, rfl, rfl, rfl, rfl, rfl, rfl⟩⟩

/-- C10 (code evaluated at the failing input): on a stream over two columns
whose remaining input is the row (NULL, "A") and the end marker, the first
`Next` succeeds but delivers `nil` and the stale content of slot 1, not the
row; the second reports `io.EOF`. In scenario B, where the NULL is in the
last column, `Query` returns the columns "id" and "name", three calls of
`Next` deliver ("1", "alice"), ("2", nil) and `io.EOF`, and a fourth reports
`io.EOF` again with the session untouched. -/
theorem Next_row_with_inner_null :
    (nextTimes 2 ⟨true, [⟨strBytes "id", 0xfd, 1⟩, ⟨strBytes "name", 0xfd, 1⟩], false⟩
        [some [120], some [121]]
        (sessionOn (wirePacket 5 [0xfb, 1, 65] ++ wirePacket 6 eofPacket) 5)).1 =
      [([none, some [121]], none), ([none, some [121]], some Err.EOF)] ∧
    (∃ rows mc1,
      Query (strBytes "SELECT") [] (sessionOn (wirePacket 1 [2] ++ scenarioBStream) 0) =
        .ret ((some rows, none), mc1) ∧
      rows.Columns = [strBytes "id", strBytes "name"] ∧
      (nextTimes 3 rows [none, none] mc1).1 =
        [([some (strBytes "1"), some (strBytes "alice")], none),
         ([some (strBytes "2"), none], none),
         ([some (strBytes "2"), none], some Err.EOF)] ∧
      (nextTimes 3 rows [none, none] mc1).2.1.eof = true ∧
      (nextTimes 3 rows [none, none] mc1).2.2.buf.pending = [] ∧
      sphinxqlRows.Next (nextTimes 3 rows [none, none] mc1).2.1 [some (strBytes "2"), none]
          (nextTimes 3 rows [none, none] mc1).2.2 =
        ((([some (strBytes "2"), none], some Err.EOF), (nextTimes 3 rows [none, none] mc1).2.1),
          (nextTimes 3 rows [none, none] mc1).2.2)) :=
  ⟨rfl, _, _, rfl, rfl, rfl, rfl, rfl, rfl⟩

/-! ## The loops never run out of fuel -/

theorem readPacket_short (mc : sphinxqlConn) (h : mc.buf.pending.length < 4) :
    (readPacket mc).1 = .error Err.ErrBadConn := by
  have h4 : ¬ 4 ≤ mc.buf.pending.length := by omega
  simp [readPacket, buffer.read, h4]

/-- A packet that `readPacket` returns is never empty, and reading it consumed
its 4-byte header and its body. -/
theorem readPacket_ok (mc mc1 : sphinxqlConn) (data : List Nat)
    (hp : readPacket mc = (.ok data, mc1)) :
    1 ≤ data.length ∧ mc1.buf.pending.length + data.length + 4 = mc.buf.pending.length := by
  by_cases hlen : mc.buf.pending.length < 4
  · have := readPacket_short mc hlen
    rw [hp] at this
    cases this
  · obtain ⟨b0, b1, b2, s, tl, hin⟩ : ∃ b0 b1 b2 s tl, mc.buf.pending = b0 :: b1 :: b2 :: s :: tl := by
      rcases hq : mc.buf.pending with _ | ⟨b0, _ | ⟨b1, _ | ⟨b2, _ | ⟨s, tl⟩⟩⟩⟩
      all_goals first | exact ⟨_, _, _, _, _, rfl⟩ | (rw [hq] at hlen; simp at hlen)
    rw [readPacket_header mc b0 b1 b2 s tl hin] at hp
    unfold buffer.read at hp
    split_ifs at hp with h1 hs hgt hb
    all_goals simp only [Prod.mk.injEq, Except.ok.injEq, reduceCtorEq, false_and] at hp
    obtain ⟨hd, hm⟩ := hp
    subst hd; subst hm
    simp only [List.length_take, List.length_drop, hin, List.length_cons] at *
    omega

/-- More fuel than unread bytes is always enough for `readUntilEOF`: the
result does not depend on the amount. -/
theorem readUntilEOFLoop_fuel (f1 f2 : Nat) (mc : sphinxqlConn)
    (h1 : mc.buf.pending.length < f1) (h2 : mc.buf.pending.length < f2) :
    readUntilEOFLoop f1 mc = readUntilEOFLoop f2 mc := by
  induction f1 generalizing f2 mc with
  | zero => omega
  | succ n ih =>
    cases f2 with
    | zero => omega
    | succ m =>
      unfold readUntilEOFLoop
      rcases hr : readPacket mc with ⟨r, mc1⟩
      cases r with
      | error e => rfl
      | ok data =>
        have hk := readPacket_ok mc mc1 data hr
        simp only
        split_ifs
        · exact ih m mc1 (by omega) (by omega)
        · rfl

/-- More fuel than unread bytes is always enough for `readColumns`. -/
theorem readColumnsLoop_fuel (count f1 f2 : Nat) (columns : List sphinxqlField) (i : Nat)
    (mc : sphinxqlConn)
    (h1 : mc.buf.pending.length < f1) (h2 : mc.buf.pending.length < f2) :
    readColumnsLoop count f1 columns i mc = readColumnsLoop count f2 columns i mc := by
  induction f1 generalizing f2 mc columns i with
  | zero => omega
  | succ n ih =>
    cases f2 with
    | zero => omega
    | succ m =>
      unfold readColumnsLoop
      rcases hr : readPacket mc with ⟨r, mc1⟩
      cases r with
      | error e => rfl
      | ok data =>
        have hk := readPacket_ok mc mc1 data hr
        simp only
        split_ifs
        · rfl
        · rfl
        · cases readColumnName data with
          | error e => rfl
          | ok r =>
            obtain ⟨name, pos⟩ := r
            simp only
            cases columns.get? i with
            | none => rfl
            | some f =>
              simp only
              cases skipLengthEnodedString (List.drop pos data) with
              | error e => rfl
              | ok k =>
                simp only
                cases data.get? (pos + k + 1 + 2 + 4) with
                | none => rfl
                | some ft =>
                  simp only
                  split_ifs
                  · rfl
                  · exact ih m _ _ mc1 (by omega) (by omega)

/-! ## What `readRow` decodes -/

theorem isField_decode (bs : List Nat) (v : Value) (tl : List Nat) (h : IsField bs v) :
    readLengthEnodedString (bs ++ tl) = .ok (v, v.isNone, bs.length) := by
  cases v with
  | none =>
    simp only [IsField] at h
    subst h
    rfl
  | some s =>
    obtain ⟨pre, hpre, hbs⟩ := h
    subst hbs
    unfold readLengthEnodedString
    rw [List.append_assoc, isLenEncInt_decode pre s.length (s ++ tl) hpre]
    simp

theorem isField_skip (bs : List Nat) (v : Value) (tl : List Nat) (h : IsField bs v) :
    skipLengthEnodedString (bs ++ tl) = .ok bs.length := by
  cases v with
  | none =>
    simp only [IsField] at h
    subst h
    rfl
  | some s =>
    obtain ⟨pre, hpre, hbs⟩ := h
    subst hbs
    unfold skipLengthEnodedString
    rw [List.append_assoc, isLenEncInt_decode pre s.length (s ++ tl) hpre]
    simp

/-- The loop of `readRow` on a run of non-NULL fields followed by a NULL
field: the values are stored, `nil` is stored for the NULL, and the slots
behind it (`after`) are returned as they were, whatever the packet holds for
them. -/
theorem readRowLoop_upto_null (data : List Nat) (encs : List (List Nat)) (vals : List (List Nat))
    (hf : List.Forall₂ (fun e s => IsField e (some s)) encs vals) :
    ∀ (pos : Nat) (done before : List Value) (x : Value) (after : List Value) (tl : List Nat),
      before.length = vals.length →
      data.drop pos = encs.flatten ++ [0xfb] ++ tl →
      readRowLoop data pos done (before ++ x :: after) =
        (done ++ vals.map some ++ [none] ++ after, none) := by
  induction hf with
  | nil =>
    intro pos done before x after tl hb hd
    have hb0 : before = [] := List.eq_nil_of_length_eq_zero (by simpa using hb)
    subst hb0
    simp only [List.flatten_nil, List.nil_append, List.singleton_append] at hd
    simp only [List.nil_append, readRowLoop, hd]
    have := isField_decode [0xfb] none tl rfl
    simp only [List.singleton_append] at this
    rw [this]
    simp
  | @cons e s encs vals he _ ih =>
    intro pos done before x after tl hb hd
    cases before with
    | nil => simp at hb
    | cons b before =>
      simp only [List.length_cons, Nat.add_right_cancel_iff] at hb
      simp only [List.flatten_cons, List.append_assoc] at hd
      simp only [List.cons_append, readRowLoop, hd]
      rw [isField_decode e (some s) _ he]
      have hd2 : data.drop (pos + e.length) = encs.flatten ++ [0xfb] ++ tl := by
        rw [← List.drop_drop, hd]
        simp
      have := ih (pos + e.length) (done ++ [some s]) before x after tl hb hd2
      simp only [Option.isNone_some, Bool.not_false, if_true]
      simpa using this

/-- The loop of `readRow` on a packet made of non-NULL fields only, one per
slot: every slot receives its field. -/
theorem readRowLoop_no_null (data : List Nat) (encs : List (List Nat)) (vals : List (List Nat))
    (hf : List.Forall₂ (fun e s => IsField e (some s)) encs vals) :
    ∀ (pos : Nat) (done slots : List Value) (tl : List Nat),
      slots.length = vals.length →
      data.drop pos = encs.flatten ++ tl →
      readRowLoop data pos done slots = (done ++ vals.map some, none) := by
  induction hf with
  | nil =>
    intro pos done slots tl hb hd
    have hb0 : slots = [] := List.eq_nil_of_length_eq_zero (by simpa using hb)
    subst hb0
    simp [readRowLoop]
  | @cons e s encs vals he _ ih =>
    intro pos done slots tl hb hd
    cases slots with
    | nil => simp at hb
    | cons b slots =>
      simp only [List.length_cons, Nat.add_right_cancel_iff] at hb
      simp only [List.flatten_cons, List.append_assoc] at hd
      simp only [readRowLoop, hd]
      rw [isField_decode e (some s) _ he]
      have hd2 : data.drop (pos + e.length) = encs.flatten ++ tl := by
        rw [← List.drop_drop, hd]
        simp
      have := ih (pos + e.length) (done ++ [some s]) slots tl hb hd2
      simp only [Option.isNone_some, Bool.not_false, if_true]
      simpa using this

/-- What `readRow` does with a well-framed row packet that is not the end
marker. If the packet holds one non-NULL field per slot, every slot receives
its field. If it holds non-NULL fields, then a NULL, then anything, the slots
up to the NULL are filled (the NULL as `nil`) and the slots behind the NULL
keep their previous content. -/
theorem readRow_fields (mc : sphinxqlConn) (data rest : List Nat)
    (encs : List (List Nat)) (vals : List (List Nat))
    (hf : List.Forall₂ (fun e s => IsField e (some s)) encs vals)
    (h1 : 1 ≤ data.length) (h2 : data.length < 2 ^ 24)
    (hne : ¬ (data.getD 0 0 = 254 ∧ data.length = 5))
    (hin : mc.buf.pending = wirePacket mc.sequence data ++ rest) :
    (∀ (slots : List Value) (tl : List Nat), slots.length = vals.length →
      data = encs.flatten ++ tl →
      readRow slots mc =
        ((vals.map some, none),
          { mc with sequence := (mc.sequence + 1) % 256, buf := ⟨rest⟩ })) ∧
    (∀ (before : List Value) (x : Value) (after : List Value) (tl : List Nat),
      before.length = vals.length →
      data = encs.flatten ++ [0xfb] ++ tl →
      readRow (before ++ x :: after) mc =
        ((vals.map some ++ [none] ++ after, none),
          { mc with sequence := (mc.sequence + 1) % 256, buf := ⟨rest⟩ })) := by
  have hp := readPacket_wirePacket mc data rest h1 h2 hin
  constructor
  · intro slots tl hl hd
    unfold readRow
    rw [hp]
    simp only [hne, if_false]
    rw [readRowLoop_no_null data encs vals hf 0 [] slots tl hl (by simpa using hd)]
    simp
  · intro before x after tl hl hd
    unfold readRow
    rw [hp]
    simp only [hne, if_false]
    rw [readRowLoop_upto_null data encs vals hf 0 [] before x after tl hl (by simpa using hd)]
    simp

/-! ## Stepping through a row stream -/

/-- Once a stream has reported end-of-sequence, `Next` reports it again and
touches neither the slots nor the session. -/
theorem Next_after_eof (rows : sphinxqlRows) (dest : List Value) (mc : sphinxqlConn)
    (h : rows.eof = true) :
    rows.Next dest mc = (((dest, some Err.EOF), rows), mc) := by
  simp [sphinxqlRows.Next, h]

/-- On an open stream, `Next` at the end marker reports end-of-sequence and
sets the `eof` flag. -/
theorem Next_at_end_marker (rows : sphinxqlRows) (dest : List Value) (mc : sphinxqlConn)
    (data rest : List Nat) (he : rows.eof = false) (hm : rows.mc = true)
    (h0 : data.getD 0 0 = 254) (h5 : data.length = 5)
    (hin : mc.buf.pending = wirePacket mc.sequence data ++ rest) :
    rows.Next dest mc =
      (((dest, some Err.EOF), { rows with eof := true }),
        { mc with sequence := (mc.sequence + 1) % 256, buf := ⟨rest⟩ }) := by
  have hp := readPacket_wirePacket mc data rest (by omega) (by omega) hin
  have hc : data.getD 0 0 = 254 ∧ data.length = 5 := ⟨h0, h5⟩
  simp only [sphinxqlRows.Next, he, hm, readRow, hp, if_pos hc]
  simp

/-- On an open stream, `Next` at a row packet returns what the loop of
`readRow` makes of that packet and leaves the stream open. -/
theorem Next_at_row (rows : sphinxqlRows) (dest : List Value) (mc : sphinxqlConn)
    (data rest : List Nat) (he : rows.eof = false) (hm : rows.mc = true)
    (h1 : 1 ≤ data.length) (h2 : data.length < 2 ^ 24)
    (hne : ¬ (data.getD 0 0 = 254 ∧ data.length = 5))
    (hok : (readRowLoop data 0 [] dest).2 ≠ some Err.EOF)
    (hin : mc.buf.pending = wirePacket mc.sequence data ++ rest) :
    rows.Next dest mc =
      ((readRowLoop data 0 [] dest, rows),
        { mc with sequence := (mc.sequence + 1) % 256, buf := ⟨rest⟩ }) := by
  have hp := readPacket_wirePacket mc data rest h1 h2 hin
  simp only [sphinxqlRows.Next, he, hm, readRow, hp, hne]
  simp [hok]

/-! ## What `readColumns` does with a stream of definitions -/

theorem isField_length (e : List Nat) (v : Value) (h : IsField e v) : 1 ≤ e.length := by
  cases v with
  | none => simp only [IsField] at h; subst h; simp
  | some s =>
    obtain ⟨pre, hpre, hbs⟩ := h
    subst hbs
    cases pre with
    | nil => simp [IsLenEncInt] at hpre
    | cons a t => simp

theorem skip_at (data : List Nat) (pos : Nat) (e : List Nat) (v : Value) (tl : List Nat)
    (h : data.drop pos = e ++ tl) (hf : IsField e v) :
    skipLengthEnodedString (data.drop pos) = .ok e.length ∧ data.drop (pos + e.length) = tl := by
  constructor
  · rw [h, isField_skip e v tl hf]
  · rw [← List.drop_drop, h]; simp

theorem get_append_mid (xs : List Nat) (y : Nat) (ys : List Nat) :
    (xs ++ y :: ys).get? xs.length = some y := by
  induction xs with
  | nil => rfl
  | cons a t ih => simpa using ih

theorem drop_get (data : List Nat) (p : Nat) (xs : List Nat) (y : Nat) (ys : List Nat)
    (h : data.drop p = xs ++ y :: ys) :
    data.get? (p + xs.length) = some y ∧ data.getD (p + xs.length) 0 = y ∧
      p + xs.length + 1 + ys.length = data.length := by
  have hlen : (data.drop p).length = xs.length + 1 + ys.length := by rw [h]; simp; omega
  rw [List.length_drop] at hlen
  have hg : data.get? (p + xs.length) = some y := by
    have := get_append_mid xs y ys
    rw [← h] at this
    simpa using this
  refine ⟨hg, ?_, by omega⟩
  rw [List.getD_eq_getElem?_getD, ← List.get?_eq_getElem?, hg]
  rfl

theorem readColumnsLoop_step (count fuel : Nat) (columns : List sphinxqlField) (i : Nat)
    (mc : sphinxqlConn) (data rest : List Nat) (f : sphinxqlField)
    (hcp : IsColumnPacket data f) (h2 : data.length < 2 ^ 24)
    (hin : mc.buf.pending = wirePacket mc.sequence data ++ rest) :
    readColumnsLoop count (fuel + 1) columns i mc =
      if i < columns.length then
        readColumnsLoop count fuel (columns.set i f) (i + 1)
          { mc with sequence := (mc.sequence + 1) % 256, buf := ⟨rest⟩ }
      else .panic := by
  obtain ⟨e1, e2, e3, e4, en, e6, v1, v2, v3, v4, v6, fixed, fl0, fl1, tl,
    f1, f2, f3, f4, fn, f6, hfix, hfl0, hflags, hdata⟩ := hcp
  have l1 := isField_length e1 v1 f1
  have hlen : 6 ≤ data.length := by rw [hdata]; simp; omega
  have hp := readPacket_wirePacket mc data rest (by omega) h2 hin
  have hne : ¬ (data.getD 0 0 = 254 ∧ data.length = 5) := by omega
  have s1 := skip_at data 0 e1 v1 _ (by simpa using hdata) f1
  simp only [List.drop_zero, Nat.zero_add] at s1
  have s2 := skip_at data e1.length e2 v2 _ s1.2 f2
  have s3 := skip_at data (e1.length + e2.length) e3 v3 _ s2.2 f3
  have s4 := skip_at data (e1.length + e2.length + e3.length) e4 v4 _ s3.2 f4
  have s5 : readLengthEnodedString
      (data.drop (e1.length + e2.length + e3.length + e4.length)) =
      .ok (some f.name, false, en.length) := by
    rw [s4.2, isField_decode en (some f.name) _ fn]; rfl
  have d5 : data.drop (e1.length + e2.length + e3.length + e4.length + en.length) =
      e6 ++ (fixed ++ (f.fieldType :: fl0 :: fl1 :: tl)) := by
    rw [← List.drop_drop, s4.2]; simp
  have s6 := skip_at data _ e6 v6 _ d5 f6
  have hname : readColumnName data =
      .ok (f.name, e1.length + e2.length + e3.length + e4.length + en.length) := by
    unfold readColumnName
    simp only [s1.1, s2.1, s3.1, s4.1, s5, Option.getD_some]
  have g1 := drop_get data _ fixed f.fieldType (fl0 :: fl1 :: tl) s6.2
  have g2 := drop_get data _ (fixed ++ [f.fieldType]) fl0 (fl1 :: tl) (by simpa using s6.2)
  have g3 := drop_get data _ (fixed ++ [f.fieldType, fl0]) fl1 tl (by simpa using s6.2)
  simp only [List.length_append, List.length_cons, List.length_nil, hfix] at g1 g2 g3
  have g1b : data.get? (e1.length + e2.length + e3.length + e4.length + en.length + e6.length
      + 1 + 2 + 4) = some f.fieldType := by
    have h := g1.1
    convert h using 2
  have g2b : data.getD (e1.length + e2.length + e3.length + e4.length + en.length + e6.length
      + 1 + 2 + 4 + 1) 0 = fl0 := by
    have h := g2.2.1
    convert h using 2
  have g3b : data.getD (e1.length + e2.length + e3.length + e4.length + en.length + e6.length
      + 1 + 2 + 4 + 1 + 1) 0 = fl1 := by
    have h := g3.2.1
    convert h using 2
  have hnp : ¬ data.length < e1.length + e2.length + e3.length + e4.length + en.length + e6.length
      + 1 + 2 + 4 + 1 + 2 := by
    omega
  rw [readColumnsLoop, hp]
  simp only [hne, if_false, hname]
  by_cases hi : i < columns.length
  · obtain ⟨c, hc⟩ : ∃ c, columns.get? i = some c := ⟨columns.get ⟨i, hi⟩, List.get?_eq_get hi⟩
    simp only [hc, hi, if_true, s6.1, g1b, hnp, if_false, g2b, g3b, or_shift8 fl0 fl1 hfl0,
      ← hflags]
  · have hc : columns.get? i = none := List.get?_eq_none.mpr (by omega)
    simp only [hc, hi, if_false]

theorem wirePacket_length (seq : Nat) (p : List Nat) : (wirePacket seq p).length = p.length + 4 := by
  simp [wirePacket]

theorem isColumnPacket_length (data : List Nat) (f : sphinxqlField) (h : IsColumnPacket data f) :
    16 ≤ data.length := by
  obtain ⟨e1, e2, e3, e4, en, e6, v1, v2, v3, v4, v6, fixed, fl0, fl1, tl,
    f1, f2, f3, f4, fn, f6, hfix, -, -, hdata⟩ := h
  have l1 := isField_length e1 v1 f1
  have l2 := isField_length e2 v2 f2
  have l3 := isField_length e3 v3 f3
  have l4 := isField_length e4 v4 f4
  have l5 := isField_length en _ fn
  have l6 := isField_length e6 v6 f6
  rw [hdata]
  simp only [List.length_append, List.length_cons]
  omega

theorem readColumnsLoop_stream (count : Nat) (ps : List (List Nat)) (fs : List sphinxqlField)
    (hf : List.Forall₂ IsColumnPacket ps fs) :
    ∀ (fuel : Nat) (done todo : List sphinxqlField) (mc : sphinxqlConn) (eofp rest : List Nat),
      (∀ p ∈ ps, p.length < 2 ^ 24) →
      eofp.getD 0 0 = 254 → eofp.length = 5 →
      mc.buf.pending.length < fuel →
      mc.buf.pending = wireStream mc.sequence (ps ++ [eofp]) ++ rest →
      done.length + todo.length = count →
      readColumnsLoop count fuel (done ++ todo) done.length mc =
        if ps.length ≤ todo.length then
          .ret ((done ++ fs ++ todo.drop ps.length,
                  if ps.length = todo.length then none
                  else some (columnsCountMismatch count count)),
                { mc with sequence := (mc.sequence + ps.length + 1) % 256, buf := ⟨rest⟩ })
        else .panic := by
  induction hf with
  | nil =>
    intro fuel done todo mc eofp rest _ h0 h5 hfuel hin hcount
    cases fuel with
    | zero => omega
    | succ n =>
      have hin2 : mc.buf.pending = wirePacket mc.sequence eofp ++ rest := by
        simpa [wireStream] using hin
      have hp := readPacket_wirePacket mc eofp rest (by omega) (by omega) hin2
      have hc : eofp.getD 0 0 = 254 ∧ eofp.length = 5 := ⟨h0, h5⟩
      rw [readColumnsLoop, hp]
      simp only [if_pos hc, List.length_nil, Nat.zero_le, if_true, List.append_nil, List.drop_zero,
        List.length_append, hcount, Nat.add_zero]
      by_cases ht : todo.length = 0
      · have : done.length = count := by omega
        simp [ht, this]
      · have h1 : done.length ≠ count := by omega
        have h2 : ¬ (0 = todo.length) := by omega
        simp [h1, h2]
  | @cons p f ps fs hpf _ ih =>
    intro fuel done todo mc eofp rest hl h0 h5 hfuel hin hcount
    cases fuel with
    | zero => omega
    | succ n =>
      have hin2 : mc.buf.pending = wirePacket mc.sequence p ++
          (wireStream ((mc.sequence + 1) % 256) (ps ++ [eofp]) ++ rest) := by
        simpa [wireStream] using hin
      have hplen : p.length < 2 ^ 24 := hl p (by simp)
      rw [readColumnsLoop_step count n (done ++ todo) done.length mc p _ f hpf hplen hin2]
      cases todo with
      | nil => simp
      | cons t todo =>
        have hi : done.length < (done ++ t :: todo).length := by simp
        simp only [hi, if_true]
        have hset : (done ++ t :: todo).set done.length f = (done ++ [f]) ++ todo := by
          simp
        have hlen1 : done.length + 1 = (done ++ [f]).length := by simp
        rw [hset, hlen1]
        have hfuel2 : (wireStream ((mc.sequence + 1) % 256) (ps ++ [eofp]) ++ rest).length < n := by
          have := wirePacket_length mc.sequence p
          rw [hin2] at hfuel
          simp only [List.length_append] at hfuel ⊢
          omega
        rw [ih n (done ++ [f]) todo
          { mc with sequence := (mc.sequence + 1) % 256,
                    buf := ⟨wireStream ((mc.sequence + 1) % 256) (ps ++ [eofp]) ++ rest⟩ }
          eofp rest (fun q hq => hl q (by simp [hq])) h0 h5 hfuel2 rfl
          (by simp only [List.length_append, List.length_cons, List.length_nil] at hcount ⊢; omega)]
        simp only [List.length_cons, Nat.add_le_add_iff_right, List.drop_succ_cons,
          Nat.add_right_cancel_iff]
        have hs : ((mc.sequence + 1) % 256 + ps.length + 1) % 256 =
            (mc.sequence + (ps.length + 1) + 1) % 256 := by omega
        simp [hs]

/-- What `readColumns` does with `k` well-formed column definitions followed
by the end marker, correctly sequenced, for a declared count `N`: with
`k = N` it succeeds and returns the described fields in packet order; with
`k < N` it returns the count-mismatch error (the fields read so far, the
others zero); with `k > N` it ends in a run-time panic. -/
theorem readColumns_stream (N : Nat) (ps : List (List Nat)) (fs : List sphinxqlField)
    (mc : sphinxqlConn) (eofp rest : List Nat)
    (hf : List.Forall₂ IsColumnPacket ps fs) (hl : ∀ p ∈ ps, p.length < 2 ^ 24)
    (h0 : eofp.getD 0 0 = 254) (h5 : eofp.length = 5)
    (hin : mc.buf.pending = wireStream mc.sequence (ps ++ [eofp]) ++ rest) :
    readColumns N mc =
      if ps.length ≤ N then
        .ret ((fs ++ List.replicate (N - ps.length) ⟨[], 0, 0⟩,
                if ps.length = N then none else some (columnsCountMismatch N N)),
              { mc with sequence := (mc.sequence + ps.length + 1) % 256, buf := ⟨rest⟩ })
      else .panic := by
  unfold readColumns
  have := readColumnsLoop_stream N ps fs hf (mc.buf.pending.length + 1) []
    (List.replicate N ⟨[], 0, 0⟩) mc eofp rest hl h0 h5 (by omega) hin (by simp)
  simp only [List.nil_append, List.length_nil, List.length_replicate] at this
  rw [this]
  simp

/-! ## C20 -/

theorem handleErrorPacket_short (data : List Nat) (h0 : data.head? = some 255)
    (h9 : data.length < 9) : handleErrorPacket data = .panic := by
  cases data with
  | nil => rfl
  | cons d0 t =>
    simp only [List.head?_cons, Option.some.injEq] at h0
    subst h0
    simp only [handleErrorPacket]
    split_ifs with h1 h3
    · exact absurd rfl h1
    · rfl
    · rfl

theorem handleErrorPacket_other (data : List Nat) (b : Nat) (h0 : data.head? = some b)
    (hb : b ≠ 255) : handleErrorPacket data = .ret Err.errMalformPkt := by
  cases data with
  | nil => simp at h0
  | cons d0 t =>
    simp only [List.head?_cons, Option.some.injEq] at h0
    subst h0
    simp [handleErrorPacket, hb]

/-- C20: for a packet whose first byte is 0xFF, `handleErrorPacket` returns an
error value exactly when the packet has at least 9 bytes; on a shorter one
the slice `data[9:]` (or already `data[1:3]`) is out of range and the call
ends in a run-time panic, no error value being produced. For a packet whose
first byte is not 0xFF it returns the malformed-packet error whatever follows
that byte; `readResultOK` reaches it that way for every first byte other than
0x00, 0xFE and 0xFF. -/
theorem handleErrorPacket_bounds (data : List Nat) :
    (data.head? = some 255 →
      ((∃ e, handleErrorPacket data = .ret e) ↔ 9 ≤ data.length) ∧
      (data.length < 9 → handleErrorPacket data = .panic)) ∧
    (∀ b, data.head? = some b → b ≠ 255 →
      handleErrorPacket data = .ret Err.errMalformPkt ∧
      (b ≠ 0 → b ≠ 254 → ∀ mc mc1, readPacket mc = (.ok data, mc1) →
        readResultOK mc = .ret (some Err.errMalformPkt, mc1))) := by
  constructor
  · intro h0
    refine ⟨⟨?_, ?_⟩, handleErrorPacket_short data h0⟩
    · rintro ⟨e, he⟩
      by_contra hlt
      rw [handleErrorPacket_short data h0 (by omega)] at he
      cases he
    · intro h9
      cases data with
      | nil => simp at h0
      | cons d0 t =>
        simp only [List.head?_cons, Option.some.injEq] at h0
        subst h0
        have h3 : ¬ (255 :: t).length < 3 := by omega
        have h9b : ¬ (255 :: t).length < 9 := by omega
        have hr : handleErrorPacket (255 :: t) =
            .ret (Err.errorf (serverErrorText
              ((255 :: t).getD 1 0 ||| (255 :: t).getD 2 0 <<< 8) ((255 :: t).drop 9))) := by
          simp only [handleErrorPacket, h3, h9b]
          simp
        exact ⟨_, hr⟩
  · intro b h0 hb
    have he := handleErrorPacket_other data b h0 hb
    refine ⟨he, ?_⟩
    intro hb0 hb254 mc mc1 hp
    unfold readResultOK
    rw [hp]
    simp only [head_getD data b h0, hb0, hb254, if_false, he]

/-- Witness of C20: the scenario-C packet (21 bytes) yields an error value, the
3-byte error packet `FF 28 04` a panic, and a packet starting with 0x05 the
malformed-packet error, also through `readResultOK`. -/
theorem handleErrorPacket_bounds_witness :
    ((∃ e, handleErrorPacket scenarioCError = .ret e) ↔ 9 ≤ scenarioCError.length) ∧
    handleErrorPacket [255, 0x28, 0x04] = .panic ∧
    handleErrorPacket [5, 1, 2] = .ret Err.errMalformPkt ∧
    readResultOK (sessionOn (wirePacket 2 [5, 1, 2]) 2) =
      .ret (some Err.errMalformPkt, sessionOn [] 3) :=
  ⟨((handleErrorPacket_bounds scenarioCError).1 rfl).1,
   ((handleErrorPacket_bounds [255, 0x28, 0x04]).1 rfl).2 (by decide),
   ((handleErrorPacket_bounds [5, 1, 2]).2 5 rfl (by decide)).1,
   ((handleErrorPacket_bounds [5, 1, 2]).2 5 rfl (by decide)).2 (by decide) (by decide)
     (sessionOn (wirePacket 2 [5, 1, 2]) 2) (sessionOn [] 3) rfl⟩

/-! ## C18 -/

/-- C18 (counterexample to the claim as stated): a header declaring length 0
is rejected with `driver.ErrBadConn`, the generic bad-connection error, not
with the malformed-packet error. -/
theorem readPacket_zero_length_is_bad_conn :
    pktLenOf 0 0 0 = 0 ∧
    readPacket (sessionOn [0, 0, 0, 7, 1, 2] 7) =
      (.error Err.ErrBadConn, sessionOn [1, 2] 7) ∧
    (readPacket (sessionOn [0, 0, 0, 7, 1, 2] 7)).1 ≠ .error Err.errMalformPkt :=
  ⟨rfl, rfl, by rw [show readPacket (sessionOn [0, 0, 0, 7, 1, 2] 7) =
      (.error Err.ErrBadConn, sessionOn [1, 2] 7) from rfl]; simp⟩

/-- C18 (amended): for every incoming header whose 3-byte declared length is
0, whatever its sequence byte, `readPacket` fails with `driver.ErrBadConn`
(the malformed-packet condition is only logged), returns no payload and
leaves the sequence counter, like the rest of the session apart from the four
consumed header bytes, unchanged. -/
theorem readPacket_zero_length (mc : sphinxqlConn) (b0 b1 b2 s : Nat) (tl : List Nat)
    (hin : mc.buf.pending = b0 :: b1 :: b2 :: s :: tl) (h0 : pktLenOf b0 b1 b2 = 0) :
    readPacket mc = (.error Err.ErrBadConn, { mc with buf := ⟨tl⟩ }) ∧
    (readPacket mc).2.sequence = mc.sequence := by
  rw [readPacket_header mc b0 b1 b2 s tl hin]
  simp [h0]

/-- Witness of C18 (amended): the header `00 00 00 09` on a session expecting
sequence number 7. -/
theorem readPacket_zero_length_witness :
    readPacket (sessionOn [0, 0, 0, 9, 1, 2] 7) =
      (.error Err.ErrBadConn, { sessionOn [0, 0, 0, 9, 1, 2] 7 with buf := ⟨[1, 2]⟩ }) ∧
    (readPacket (sessionOn [0, 0, 0, 9, 1, 2] 7)).2.sequence = 7 :=
  readPacket_zero_length (sessionOn [0, 0, 0, 9, 1, 2] 7) 0 0 0 9 [1, 2] rfl rfl

/-! ## C12 -/

/-- C12: with a non-empty list of bound arguments, `Exec` and `Query`, on the
connection and through a prepared statement (whether or not the statement
still points to its session), fail with the error "args not supported" and
return the session exactly as it was: nothing is written, and the sequence
counter, the affected-row count and the insert id are unchanged. -/
theorem args_not_supported (q : List Nat) (args : List Value) (stmt : sphinxqlStmt)
    (mc : sphinxqlConn) (h : args ≠ []) :
    Exec q args mc = .ret ((none, some (Err.errorf (strBytes "args not supported"))), mc) ∧
    Query q args mc = .ret ((none, some (Err.errorf (strBytes "args not supported"))), mc) ∧
    stmt.Exec args mc =
      .ret ((none, some (Err.errorf (strBytes "args not supported"))), mc) ∧
    stmt.Query args mc =
      .ret ((none, some (Err.errorf (strBytes "args not supported"))), mc) := by
  have hl : ¬ args.length = 0 := by
    intro h0; exact h (List.eq_nil_of_length_eq_zero h0)
  refine ⟨by simp [Exec, hl], by simp [Query, hl], ?_, ?_⟩
  · unfold sphinxqlStmt.Exec
    cases stmt.mc <;> simp [Exec, hl]
  · unfold sphinxqlStmt.Query
    cases stmt.mc <;> simp [Query, hl]

/-- Witness of C12: one bound argument, on a session with input pending. -/
theorem args_not_supported_witness :
    Exec (strBytes "SELECT ?") [some [49]] (sessionOn [1, 2, 3] 4) =
      .ret ((none, some (Err.errorf (strBytes "args not supported"))), sessionOn [1, 2, 3] 4) ∧
    Query (strBytes "SELECT ?") [some [49]] (sessionOn [1, 2, 3] 4) =
      .ret ((none, some (Err.errorf (strBytes "args not supported"))), sessionOn [1, 2, 3] 4) ∧
    sphinxqlStmt.Exec ⟨true, strBytes "SELECT ?"⟩ [some [49]] (sessionOn [1, 2, 3] 4) =
      .ret ((none, some (Err.errorf (strBytes "args not supported"))), sessionOn [1, 2, 3] 4) ∧
    sphinxqlStmt.Query ⟨true, strBytes "SELECT ?"⟩ [some [49]] (sessionOn [1, 2, 3] 4) =
      .ret ((none, some (Err.errorf (strBytes "args not supported"))), sessionOn [1, 2, 3] 4) :=
  args_not_supported (strBytes "SELECT ?") [some [49]] ⟨true, strBytes "SELECT ?"⟩
    (sessionOn [1, 2, 3] 4) (by simp)

/-! ## The authentication packet -/

theorem clientFlags_eq (serverFlags : Nat) (dbname : List Nat) :
    (if dbname.length > 0 then
        (if serverFlags &&& CLIENT_LONG_FLAG > 0 then
          CLIENT_PROTOCOL_41 ||| CLIENT_SECURE_CONN ||| CLIENT_LONG_PASSWORD |||
            CLIENT_TRANSACTIONS ||| CLIENT_LONG_FLAG
         else CLIENT_PROTOCOL_41 ||| CLIENT_SECURE_CONN ||| CLIENT_LONG_PASSWORD |||
            CLIENT_TRANSACTIONS) ||| CLIENT_CONNECT_WITH_DB
      else
        (if serverFlags &&& CLIENT_LONG_FLAG > 0 then
          CLIENT_PROTOCOL_41 ||| CLIENT_SECURE_CONN ||| CLIENT_LONG_PASSWORD |||
            CLIENT_TRANSACTIONS ||| CLIENT_LONG_FLAG
         else CLIENT_PROTOCOL_41 ||| CLIENT_SECURE_CONN ||| CLIENT_LONG_PASSWORD |||
            CLIENT_TRANSACTIONS)) = authCapability serverFlags dbname := by
  unfold authCapability
  have hd : dbname.length > 0 ↔ dbname ≠ [] := by
    cases dbname <;> simp
  have hf : serverFlags &&& CLIENT_LONG_FLAG > 0 ↔ serverFlags &&& CLIENT_LONG_FLAG ≠ 0 :=
    Nat.pos_iff_ne_zero
  by_cases h1 : dbname ≠ [] <;> by_cases h2 : serverFlags &&& CLIENT_LONG_FLAG ≠ 0
  · simp only [hd, hf, if_pos h1, if_pos h2]; rfl
  · simp only [hd, hf, if_pos h1, if_neg h2]; rfl
  · simp only [hd, hf, if_neg h1, if_pos h2]; rfl
  · simp only [hd, hf, if_neg h1, if_neg h2]; rfl

/-- `writeAuthPacket` hands the framed authentication body to `writePacket`
after clearing the stored salt. -/
theorem writeAuthPacket_eq (scr : List Nat → List Nat → List Nat) (mc : sphinxqlConn) :
    writeAuthPacket scr mc =
      writePacket
        (wirePacket mc.sequence
          (authBody (authCapability mc.flags mc.cfg.dbname) mc.charset mc.cfg.user
            ((scr mc.cipher mc.cfg.passwd).length % 256) (scr mc.cipher mc.cfg.passwd)
            mc.cfg.dbname))
        { mc with cipher := [] } := by
  unfold writeAuthPacket
  simp only [clientFlags_eq]
  congr 1
  have hd : mc.cfg.dbname.length > 0 ↔ mc.cfg.dbname ≠ [] := by
    cases mc.cfg.dbname <;> simp
  have hL : (authBody (authCapability mc.flags mc.cfg.dbname) mc.charset mc.cfg.user
      ((scr mc.cipher mc.cfg.passwd).length % 256) (scr mc.cipher mc.cfg.passwd)
      mc.cfg.dbname).length =
      if mc.cfg.dbname.length > 0 then
        4 + 4 + 1 + 23 + mc.cfg.user.length + 1 + 1 + (scr mc.cipher mc.cfg.passwd).length +
          (mc.cfg.dbname.length + 1)
      else 4 + 4 + 1 + 23 + mc.cfg.user.length + 1 + 1 + (scr mc.cipher mc.cfg.passwd).length := by
    unfold authBody
    by_cases h : mc.cfg.dbname ≠ []
    · simp only [hd, if_pos h, List.length_append, List.length_cons, List.length_nil,
        List.length_replicate]
    · simp only [hd, if_neg h, List.length_append, List.length_cons, List.length_nil,
        List.length_replicate]
      omega
  unfold wirePacket
  rw [hL]
  simp only [authBody, hd]
  simp

theorem newlyWritten_writePacket (data : List Nat) (mc0 mc : sphinxqlConn)
    (hn : mc.netConn = mc0.netConn) (hw : (writePacket data mc).1 = none) :
    newlyWritten mc0 (writePacket data mc).2 = data ∧
    (writePacket data mc).2.sequence = (mc.sequence + 1) % 256 := by
  have h := writePacket_success data mc hw
  rw [h.1]
  simp only [newlyWritten]
  rw [h.2, hn]
  simp

theorem writeAuthPacket_fst (scr : List Nat → List Nat → List Nat) (mc : sphinxqlConn) :
    (writeAuthPacket scr mc).2.cipher = [] := by
  rw [writeAuthPacket_eq]
  unfold writePacket
  rcases (NetConn.Write _ _) with ⟨⟨n, err⟩, c⟩
  simp only
  split_ifs <;> rfl

theorem leValue_four (n : Nat) (h : n < 2 ^ 32) :
    leValue [n % 256, (n >>> 8) % 256, (n >>> 16) % 256, (n >>> 24) % 256] = n := by
  simp only [leValue, Nat.shiftRight_eq_div_pow]
  omega

theorem authCapability_cases (serverFlags : Nat) (dbname : List Nat) :
    (serverFlags &&& CLIENT_LONG_FLAG ≠ 0 ∧ dbname ≠ [] ∧
      authCapability serverFlags dbname = 41485) ∨
    (serverFlags &&& CLIENT_LONG_FLAG ≠ 0 ∧ dbname = [] ∧
      authCapability serverFlags dbname = 41477) ∨
    (serverFlags &&& CLIENT_LONG_FLAG = 0 ∧ dbname ≠ [] ∧
      authCapability serverFlags dbname = 41481) ∨
    (serverFlags &&& CLIENT_LONG_FLAG = 0 ∧ dbname = [] ∧
      authCapability serverFlags dbname = 41473) := by
  unfold authCapability
  by_cases h1 : dbname ≠ [] <;> by_cases h2 : serverFlags &&& CLIENT_LONG_FLAG ≠ 0
  · exact Or.inl ⟨h2, h1, by rw [if_pos h1, if_pos h2]; rfl⟩
  · exact Or.inr (Or.inr (Or.inl ⟨not_not.mp h2, h1, by rw [if_pos h1, if_neg h2]; rfl⟩))
  · exact Or.inr (Or.inl ⟨h2, not_not.mp h1, by rw [if_neg h1, if_pos h2]; rfl⟩)
  · exact Or.inr (Or.inr (Or.inr ⟨not_not.mp h2, not_not.mp h1,
      by rw [if_neg h1, if_neg h2]; rfl⟩))

/-! ## C16 -/

/-- C16: in the packet `writeAuthPacket` writes, the 4-byte little-endian
capability field has the protocol-4.1, secure-connection, long-password and
transactions bits set, has the long-flag bit set exactly when the server
flags stored from the handshake have it, has the connect-with-database bit
set exactly when the configured database name is non-empty, and has no bit
set outside these six. -/
theorem writeAuthPacket_capability_field (scr : List Nat → List Nat → List Nat)
    (mc : sphinxqlConn) (hw : (writeAuthPacket scr mc).1 = none) :
    capabilityField (newlyWritten mc (writeAuthPacket scr mc).2) =
      authCapability mc.flags mc.cfg.dbname ∧
    authCapability mc.flags mc.cfg.dbname &&& CLIENT_PROTOCOL_41 = CLIENT_PROTOCOL_41 ∧
    authCapability mc.flags mc.cfg.dbname &&& CLIENT_SECURE_CONN = CLIENT_SECURE_CONN ∧
    authCapability mc.flags mc.cfg.dbname &&& CLIENT_LONG_PASSWORD = CLIENT_LONG_PASSWORD ∧
    authCapability mc.flags mc.cfg.dbname &&& CLIENT_TRANSACTIONS = CLIENT_TRANSACTIONS ∧
    (authCapability mc.flags mc.cfg.dbname &&& CLIENT_LONG_FLAG = CLIENT_LONG_FLAG ↔
      mc.flags &&& CLIENT_LONG_FLAG > 0) ∧
    (authCapability mc.flags mc.cfg.dbname &&& CLIENT_CONNECT_WITH_DB = CLIENT_CONNECT_WITH_DB ↔
      mc.cfg.dbname ≠ []) ∧
    authCapability mc.flags mc.cfg.dbname &&&
      (CLIENT_PROTOCOL_41 ||| CLIENT_SECURE_CONN ||| CLIENT_LONG_PASSWORD |||
        CLIENT_TRANSACTIONS ||| CLIENT_LONG_FLAG ||| CLIENT_CONNECT_WITH_DB) =
      authCapability mc.flags mc.cfg.dbname := by
  have hc := authCapability_cases mc.flags mc.cfg.dbname
  have hpos : mc.flags &&& CLIENT_LONG_FLAG > 0 ↔ mc.flags &&& CLIENT_LONG_FLAG ≠ 0 :=
    Nat.pos_iff_ne_zero
  constructor
  · rw [writeAuthPacket_eq] at hw ⊢
    rw [(newlyWritten_writePacket _ mc { mc with cipher := [] } rfl hw).1]
    have hlt : authCapability mc.flags mc.cfg.dbname < 2 ^ 32 := by
      rcases hc with ⟨-, -, h⟩ | ⟨-, -, h⟩ | ⟨-, -, h⟩ | ⟨-, -, h⟩ <;> rw [h] <;> decide
    simp only [capabilityField, wirePacket, authBody, List.cons_append, List.nil_append,
      List.drop_succ_cons, List.drop_zero, List.take_succ_cons, List.take_zero]
    exact leValue_four _ hlt
  · rcases hc with ⟨h1, h2, h⟩ | ⟨h1, h2, h⟩ | ⟨h1, h2, h⟩ | ⟨h1, h2, h⟩ <;>
      rw [h, hpos] <;>
      simp only [h1, h2, ne_eq, not_true_eq_false, not_false_eq_true, iff_true, iff_false] <;>
      decide

/-- Witness of C16: a server advertising long-flag with no database
configured, and a server not advertising it with the database "D". -/
theorem writeAuthPacket_capability_field_witness :
    (capabilityField (newlyWritten (authSession 0xf7ff [])
        (writeAuthPacket sampleScramble (authSession 0xf7ff [])).2) = 41477 ∧
      41477 = CLIENT_PROTOCOL_41 + CLIENT_SECURE_CONN + CLIENT_LONG_PASSWORD +
        CLIENT_TRANSACTIONS + CLIENT_LONG_FLAG) ∧
    (capabilityField (newlyWritten (authSession 0xf7fb [68])
        (writeAuthPacket sampleScramble (authSession 0xf7fb [68])).2) = 41481 ∧
      41481 = CLIENT_PROTOCOL_41 + CLIENT_SECURE_CONN + CLIENT_LONG_PASSWORD +
        CLIENT_TRANSACTIONS + CLIENT_CONNECT_WITH_DB) :=
  ⟨⟨(writeAuthPacket_capability_field sampleScramble (authSession 0xf7ff []) rfl).1, rfl⟩,
   ⟨(writeAuthPacket_capability_field sampleScramble (authSession 0xf7fb [68]) rfl).1, rfl⟩⟩

/-! ## C17 -/

/-- C17: for user name `u`, database name `d`, charset `c`, a scramble buffer
`b` of fewer than 251 bytes and sequence counter `q`, `writeAuthPacket`
clears the stored salt and, when the write succeeds, has written exactly: the
three low-order little-endian bytes of the number `L` of bytes after the
header (they read back as `L` when `L < 2^24`), the sequence byte `q`, and
the `L` bytes of `authBody`: the 4 capability bytes, `FF FF FF 00`, `c`, 23
zero bytes, `u` and a zero byte, the byte `len(b)` and `b`, and for a
non-empty `d` the bytes of `d` and a zero byte; the counter is then `q+1`
(modulo 256). -/
theorem writeAuthPacket_bytes (scr : List Nat → List Nat → List Nat) (mc : sphinxqlConn)
    (u d b : List Nat) (c q : Nat)
    (hu : mc.cfg.user = u) (hd : mc.cfg.dbname = d) (hc : mc.charset = c)
    (hq : mc.sequence = q) (hs : scr mc.cipher mc.cfg.passwd = b) (hb : b.length < 251) :
    (writeAuthPacket scr mc).2.cipher = [] ∧
    ((writeAuthPacket scr mc).1 = none →
      newlyWritten mc (writeAuthPacket scr mc).2 =
        [(authBody (authCapability mc.flags d) c u b.length b d).length % 256,
         ((authBody (authCapability mc.flags d) c u b.length b d).length >>> 8) % 256,
         ((authBody (authCapability mc.flags d) c u b.length b d).length >>> 16) % 256,
         q] ++ authBody (authCapability mc.flags d) c u b.length b d ∧
      (writeAuthPacket scr mc).2.sequence = (q + 1) % 256 ∧
      ((authBody (authCapability mc.flags d) c u b.length b d).length < 2 ^ 24 →
        pktLenOf ((newlyWritten mc (writeAuthPacket scr mc).2).getD 0 0)
          ((newlyWritten mc (writeAuthPacket scr mc).2).getD 1 0)
          ((newlyWritten mc (writeAuthPacket scr mc).2).getD 2 0) =
          (authBody (authCapability mc.flags d) c u b.length b d).length)) := by
  refine ⟨writeAuthPacket_fst scr mc, ?_⟩
  intro hw
  rw [writeAuthPacket_eq] at hw ⊢
  have h := newlyWritten_writePacket _ mc { mc with cipher := [] } rfl hw
  have hmod : b.length % 256 = b.length := Nat.mod_eq_of_lt (by omega)
  rw [h.1, h.2]
  simp only [hu, hd, hc, hq, hs, hmod]
  refine ⟨rfl, trivial, ?_⟩
  intro hL
  simp only [wirePacket, List.cons_append, List.nil_append, List.getD_cons_zero,
    List.getD_cons_succ]
  exact pktLenOf_bytes _ hL

/-- Witness of C17: user "AB", database "D", charset 33, scramble buffer
`01 02 03`, counter 1, server flags with long-flag. -/
theorem writeAuthPacket_bytes_witness :
    (writeAuthPacket sampleScramble (authSession 0xf7ff [68])).2.cipher = [] ∧
    newlyWritten (authSession 0xf7ff [68])
        (writeAuthPacket sampleScramble (authSession 0xf7ff [68])).2 =
      [41, 0, 0, 1] ++ [0x0d, 0xa2, 0, 0] ++ [0xff, 0xff, 0xff, 0] ++ [33] ++
        List.replicate 23 0 ++ [65, 66] ++ [0] ++ [3] ++ [1, 2, 3] ++ [68, 0] ∧
    (writeAuthPacket sampleScramble (authSession 0xf7ff [68])).2.sequence = 2 :=
  ⟨(writeAuthPacket_bytes sampleScramble (authSession 0xf7ff [68]) [65, 66] [68] [1, 2, 3] 33 1
      rfl rfl rfl rfl rfl (by decide)).1,
   ((writeAuthPacket_bytes sampleScramble (authSession 0xf7ff [68]) [65, 66] [68] [1, 2, 3] 33 1
      rfl rfl rfl rfl rfl (by decide)).2 rfl).1,
   ((writeAuthPacket_bytes sampleScramble (authSession 0xf7ff [68]) [65, 66] [68] [1, 2, 3] 33 1
      rfl rfl rfl rfl rfl (by decide)).2 rfl).2.1⟩

/-! ## The handshake packet -/

theorem indexByte_terminated (sv tl : List Nat) (h : 0 ∉ sv) :
    indexByte (sv ++ 0 :: tl) 0 = (sv.length : Int) := by
  unfold indexByte
  have hm : (0 : Nat) ∈ sv ++ 0 :: tl := by simp
  rw [if_pos hm, List.indexOf_append_of_not_mem h, List.indexOf_cons_self]
  simp

theorem drop_take_at (data pre mid tl : List Nat) (p n : Nat)
    (hd : data = pre ++ (mid ++ tl)) (hp : pre.length = p) (hn : mid.length = n) :
    (data.drop p).take n = mid := by
  subst hd; subst hp; subst hn
  simp

theorem getD_at (data pre : List Nat) (y : Nat) (tl : List Nat) (p : Nat)
    (hd : data = pre ++ y :: tl) (hp : pre.length = p) : data.getD p 0 = y := by
  have h := drop_get data 0 pre y tl (by simpa using hd)
  rw [← hp]
  simpa using h.2.1

/-- What `readInitPacket` does with a well-laid-out handshake packet: the
first salt segment and the flags are stored; the error is the one of the
missing protocol-4.1 bit if that bit is missing, otherwise the one of the old
version if the version is old; a packet that goes on must go on for at least
28 bytes, of which bytes 16 to 27 are the second salt segment, and a non-zero
final byte replaces the error by the malformed-packet error. -/
theorem readInitPacket_layout (mc mc1 : sphinxqlConn) (version : Nat)
    (sv connId salt1 : List Nat) (filler fl0 fl1 : Nat) (more : List Nat)
    (hp : readPacket mc =
      (.ok (handshakePacket version sv connId salt1 filler fl0 fl1 more), mc1))
    (hsv : 0 ∉ sv) (hid : connId.length = 4) (hs1 : salt1.length = 8) :
    readInitPacket mc =
      if more = [] then
        .ret (if (fl0 ||| fl1 <<< 8) &&& CLIENT_PROTOCOL_41 = 0 then
                some (Err.errorf unsupportedServerText)
              else if version < MIN_PROTOCOL_VERSION then
                some (Err.errorf (unsupportedProtocolText version))
              else none,
          { mc1 with cipher := mc1.cipher ++ salt1, flags := fl0 ||| fl1 <<< 8 })
      else if more.length < 28 then .panic
      else
        .ret (if more.getD (more.length - 1) 0 = 0 then
                (if (fl0 ||| fl1 <<< 8) &&& CLIENT_PROTOCOL_41 = 0 then
                  some (Err.errorf unsupportedServerText)
                else if version < MIN_PROTOCOL_VERSION then
                  some (Err.errorf (unsupportedProtocolText version))
                else none)
              else some Err.errMalformPkt,
          { mc1 with cipher := mc1.cipher ++ salt1 ++ (more.drop 16).take 12,
                     flags := fl0 ||| fl1 <<< 8, charset := more.getD 0 0 }) := by
  have hdata : handshakePacket version sv connId salt1 filler fl0 fl1 more =
      (version :: (sv ++ 0 :: connId)) ++ (salt1 ++ (filler :: fl0 :: fl1 :: more)) := by
    simp [handshakePacket]
  have hlen : (handshakePacket version sv connId salt1 filler fl0 fl1 more).length =
      sv.length + 17 + more.length := by
    rw [hdata]; simp only [List.length_append, List.length_cons, hid, hs1]; omega
  have hpre : (version :: (sv ++ 0 :: connId)).length = sv.length + 6 := by
    simp only [List.length_append, List.length_cons, hid]
  have hpos : (1 + indexByte ((handshakePacket version sv connId salt1 filler fl0 fl1 more).drop 1) 0
      + 1 + 4).toNat = sv.length + 6 := by
    have : (handshakePacket version sv connId salt1 filler fl0 fl1 more).drop 1 =
        sv ++ 0 :: (connId ++ (salt1 ++ (filler :: fl0 :: fl1 :: more))) := by
      simp [handshakePacket]
    rw [this, indexByte_terminated sv _ hsv]
    omega
  have hv : (handshakePacket version sv connId salt1 filler fl0 fl1 more).getD 0 0 = version := by
    simp [handshakePacket]
  have hsalt1 : ((handshakePacket version sv connId salt1 filler fl0 fl1 more).drop
      (sv.length + 6)).take 8 = salt1 :=
    drop_take_at _ _ salt1 _ _ 8 hdata hpre hs1
  have hfl0 : (handshakePacket version sv connId salt1 filler fl0 fl1 more).getD
      (sv.length + 6 + (8 + 1)) 0 = fl0 :=
    getD_at _ (version :: (sv ++ 0 :: connId) ++ (salt1 ++ [filler])) fl0 (fl1 :: more) _
      (by simp [handshakePacket])
      (by simp only [List.length_append, List.length_cons, List.length_nil, hid, hs1])
  have hfl1 : (handshakePacket version sv connId salt1 filler fl0 fl1 more).getD
      (sv.length + 6 + (8 + 1) + 1) 0 = fl1 :=
    getD_at _ (version :: (sv ++ 0 :: connId) ++ (salt1 ++ [filler, fl0])) fl1 more _
      (by simp [handshakePacket])
      (by simp only [List.length_append, List.length_cons, List.length_nil, hid, hs1])
  have hfull : handshakePacket version sv connId salt1 filler fl0 fl1 more =
      (version :: (sv ++ 0 :: connId) ++ (salt1 ++ [filler, fl0, fl1])) ++ more := by
    simp [handshakePacket]
  have hfullLen : (version :: (sv ++ 0 :: connId) ++ (salt1 ++ [filler, fl0, fl1])).length =
      sv.length + 6 + (8 + 1) + 2 := by
    simp only [List.length_append, List.length_cons, List.length_nil, hid, hs1]
  unfold readInitPacket
  rw [hp]
  simp only [hpos, hv, hsalt1, hfl0, hfl1]
  have c1 : ¬ (handshakePacket version sv connId salt1 filler fl0 fl1 more).length <
      sv.length + 6 + 8 := by omega
  have c2 : ¬ (handshakePacket version sv connId salt1 filler fl0 fl1 more).length <
      sv.length + 6 + (8 + 1) + 2 := by omega
  simp only [c1, c2, if_false]
  by_cases hm : more = []
  · subst hm
    have c3 : ¬ (handshakePacket version sv connId salt1 filler fl0 fl1 []).length >
        sv.length + 6 + (8 + 1) + 2 := by
      rw [hlen]; simp
    simp only [c3, if_false, if_true]
  · have hml : 1 ≤ more.length := by
      cases more with
      | nil => exact absurd rfl hm
      | cons a t => simp
    have c3 : (handshakePacket version sv connId salt1 filler fl0 fl1 more).length >
        sv.length + 6 + (8 + 1) + 2 := by omega
    simp only [c3, if_true, if_neg hm]
    by_cases h28 : more.length < 28
    · have c4 : (handshakePacket version sv connId salt1 filler fl0 fl1 more).length <
          sv.length + 6 + (8 + 1) + 2 + (1 + 2 + 2 + 1 + 10) + 12 := by omega
      simp only [c4, if_true, if_pos h28]
    · have c4 : ¬ (handshakePacket version sv connId salt1 filler fl0 fl1 more).length <
          sv.length + 6 + (8 + 1) + 2 + (1 + 2 + 2 + 1 + 10) + 12 := by omega
      have hcs : (handshakePacket version sv connId salt1 filler fl0 fl1 more).getD
          (sv.length + 6 + (8 + 1) + 2) 0 = more.getD 0 0 := by
        cases more with
        | nil => exact absurd rfl hm
        | cons a t =>
          rw [getD_at _ _ a t _ hfull hfullLen]; rfl
      have hs2 : ((handshakePacket version sv connId salt1 filler fl0 fl1 more).drop
          (sv.length + 6 + (8 + 1) + 2 + (1 + 2 + 2 + 1 + 10))).take 12 =
          (more.drop 16).take 12 := by
        rw [hfull, ← hfullLen, List.drop_append]
      have hlast : (handshakePacket version sv connId salt1 filler fl0 fl1 more).getD
          ((handshakePacket version sv connId salt1 filler fl0 fl1 more).length - 1) 0 =
          more.getD (more.length - 1) 0 := by
        have e : (handshakePacket version sv connId salt1 filler fl0 fl1 more).length - 1 =
            (version :: (sv ++ 0 :: connId) ++ (salt1 ++ [filler, fl0, fl1])).length +
              (more.length - 1) := by
          rw [hlen, hfullLen]; omega
        rw [e]
        conv_lhs => rw [hfull]
        rw [List.getD_eq_getElem?_getD, List.getD_eq_getElem?_getD,
          List.getElem?_append_right (by omega)]
        simp
      simp only [c4, if_false, if_neg h28, hcs, hs2, hlast]
      split_ifs <;> rfl

theorem readPacket_cipher (mc : sphinxqlConn) : (readPacket mc).2.cipher = mc.cipher := by
  unfold readPacket buffer.read
  split_ifs <;> simp
  split_ifs <;> simp

/-- The verdict of `readInitPacket` on a well-laid-out handshake packet: it is
accepted only when the version is supported and the protocol-4.1 bit is
present; without that bit, and with an old version, it is never accepted. The
error names the old version when the bit is present and the packet either
ends with the capability field or ends with a zero byte. -/
theorem readInitPacket_verdict (mc mc1 : sphinxqlConn) (version : Nat)
    (sv connId salt1 : List Nat) (filler fl0 fl1 : Nat) (more : List Nat)
    (hp : readPacket mc =
      (.ok (handshakePacket version sv connId salt1 filler fl0 fl1 more), mc1))
    (hsv : 0 ∉ sv) (hid : connId.length = 4) (hs1 : salt1.length = 8) :
    (∀ mc2, readInitPacket mc = .ret (none, mc2) →
      MIN_PROTOCOL_VERSION ≤ version ∧ (fl0 ||| fl1 <<< 8) &&& CLIENT_PROTOCOL_41 ≠ 0) ∧
    (version < MIN_PROTOCOL_VERSION → (fl0 ||| fl1 <<< 8) &&& CLIENT_PROTOCOL_41 ≠ 0 →
      (more = [] ∨ (28 ≤ more.length ∧ more.getD (more.length - 1) 0 = 0)) →
      ∃ mc2, readInitPacket mc =
        .ret (some (Err.errorf (unsupportedProtocolText version)), mc2)) := by
  have h := readInitPacket_layout mc mc1 version sv connId salt1 filler fl0 fl1 more hp hsv hid hs1
  constructor
  · intro mc2 hok
    rw [h] at hok
    by_cases hf : (fl0 ||| fl1 <<< 8) &&& CLIENT_PROTOCOL_41 = 0
    · simp only [hf, if_true] at hok
      split_ifs at hok <;> simp at hok
    · by_cases hv : version < MIN_PROTOCOL_VERSION
      · simp only [hf, hv, if_true, if_false] at hok
        split_ifs at hok <;> simp at hok
      · exact ⟨by omega, hf⟩
  · intro hv hf hm
    rw [h]
    rcases hm with hm | ⟨h28, hz⟩
    · simp only [hm, if_true, hf, if_false, hv]
      exact ⟨_, rfl⟩
    · have hne : more ≠ [] := by
        intro h0; rw [h0] at h28; simp at h28
      have hn28 : ¬ more.length < 28 := by omega
      simp only [if_neg hne, if_neg hn28, hz, if_true, hf, if_false, hv]
      exact ⟨_, rfl⟩

/-! ## C14 -/

/-- C14 (code evaluated at the failing inputs): a handshake packet of protocol
version 9, below the minimum 10. With the protocol-4.1 bit present and a zero
final byte the error names version 9, as claimed. Without the bit
(capability bytes `FF F5`) the error returned is the one about protocol 4.1,
and with the bit but a non-zero final byte it is the malformed-packet error:
in both cases the version error has been overwritten and is not returned. -/
theorem readInitPacket_version_error_overwritten :
    (0xff ||| 0xf7 <<< 8) &&& CLIENT_PROTOCOL_41 ≠ 0 ∧
    (0xff ||| 0xf5 <<< 8) &&& CLIENT_PROTOCOL_41 = 0 ∧
    (∃ mc2, readInitPacket (sessionOn (wirePacket 0 (sampleHandshake 9 0xff 0xf7 0)) 0) =
      .ret (some (Err.errorf (unsupportedProtocolText 9)), mc2)) ∧
    (∃ mc2, readInitPacket (sessionOn (wirePacket 0 (sampleHandshake 9 0xff 0xf5 0)) 0) =
      .ret (some (Err.errorf unsupportedServerText), mc2)) ∧
    (∃ mc2, readInitPacket (sessionOn (wirePacket 0 (sampleHandshake 9 0xff 0xf7 1)) 0) =
      .ret (some Err.errMalformPkt, mc2)) ∧
    unsupportedProtocolText 9 = strBytes
      "Unsupported MySQL Protocol Version 9. Protocol Version 10 or higher is required" ∧
    Err.errorf unsupportedServerText ≠ Err.errorf (unsupportedProtocolText 9) ∧
    Err.errMalformPkt ≠ Err.errorf (unsupportedProtocolText 9) :=
  ⟨by decide, by decide, ⟨_, rfl⟩, ⟨_, rfl⟩, ⟨_, rfl⟩, by decide, by decide, by decide⟩

/-! ## C15 -/

/-- C15 (counterexample to the claim as stated): a handshake packet that ends
with the capability field (version 10, protocol-4.1 bit present) is read
successfully on a fresh session, and the stored salt is then the 8 bytes of
the first segment only. -/
theorem readInitPacket_short_handshake :
    ∃ mc2, readInitPacket (sessionOn (wirePacket 0
        (handshakePacket 10 (strBytes "2.0") [1, 0, 0, 0] [11, 12, 13, 14, 15, 16, 17, 18]
          0 0xff 0xf7 [])) 0) = .ret (none, mc2) ∧
      mc2.cipher = [11, 12, 13, 14, 15, 16, 17, 18] ∧ mc2.cipher.length = 8 :=
  ⟨_, rfl, rfl, rfl⟩

/-- C15 (amended): after a successful `readInitPacket` on a fresh session, for
a handshake packet that goes on beyond the 2-byte capability field, the
stored salt is exactly 20 bytes: the 8 bytes that follow the zero-terminated
server version and the 4-byte connection id, then the 12 bytes that start 16
bytes after the end of the capability field; for a packet that ends with the
capability field it is those first 8 bytes only. The byte between the first
salt segment and the capability field may have any value. -/
theorem readInitPacket_salt (mc mc1 mc2 : sphinxqlConn) (version : Nat)
    (sv connId salt1 : List Nat) (filler fl0 fl1 : Nat) (more : List Nat)
    (hp : readPacket mc =
      (.ok (handshakePacket version sv connId salt1 filler fl0 fl1 more), mc1))
    (hsv : 0 ∉ sv) (hid : connId.length = 4) (hs1 : salt1.length = 8)
    (hfresh : mc.cipher = []) (hok : readInitPacket mc = .ret (none, mc2)) :
    (more ≠ [] →
      mc2.cipher = salt1 ++ (more.drop 16).take 12 ∧ mc2.cipher.length = 20) ∧
    (more = [] → mc2.cipher = salt1 ∧ mc2.cipher.length = 8) := by
  have h := readInitPacket_layout mc mc1 version sv connId salt1 filler fl0 fl1 more hp hsv hid hs1
  have hc1 : mc1.cipher = [] := by
    have := readPacket_cipher mc
    rw [hp, hfresh] at this
    exact this
  rw [h] at hok
  constructor
  · intro hm
    by_cases h28 : more.length < 28
    · simp only [if_neg hm, if_pos h28] at hok
      cases hok
    · simp only [if_neg hm, if_neg h28, Run.ret.injEq, Prod.mk.injEq] at hok
      rw [← hok.2]
      simp only [hc1, List.nil_append, List.length_append, hs1, List.length_take,
        List.length_drop, true_and]
      omega
  · intro hm
    simp only [if_pos hm, Run.ret.injEq, Prod.mk.injEq] at hok
    rw [← hok.2]
    simp only [hc1, List.nil_append, hs1, and_self]

/-- Witness of C15 (amended): a full handshake (version 10, server "2.0",
filler byte 9, final byte zero) stores `0B .. 12` followed by `1F .. 2A`. -/
theorem readInitPacket_salt_witness :
    ∃ mc2, readInitPacket (sessionOn (wirePacket 0 (fillerHandshake 9)) 0) = .ret (none, mc2) ∧
      mc2.cipher = [11, 12, 13, 14, 15, 16, 17, 18] ++
        [31, 32, 33, 34, 35, 36, 37, 38, 39, 40, 41, 42] ∧
      mc2.cipher.length = 20 :=
  ⟨_, rfl,
    ((readInitPacket_salt (sessionOn (wirePacket 0 (fillerHandshake 9)) 0)
      (sessionOn [] 1) _ 10 (strBytes "2.0") [1, 0, 0, 0] [11, 12, 13, 14, 15, 16, 17, 18]
      9 0xff 0xf7 _ rfl (by decide) rfl rfl rfl rfl).1 (by decide)).1,
    ((readInitPacket_salt (sessionOn (wirePacket 0 (fillerHandshake 9)) 0)
      (sessionOn [] 1) _ 10 (strBytes "2.0") [1, 0, 0, 0] [11, 12, 13, 14, 15, 16, 17, 18]
      9 0xff 0xf7 _ rfl (by decide) rfl rfl rfl rfl).1 (by decide)).2⟩

/-! ## Which packets the handshake reader accepts -/

theorem mem_split_first (l : List Nat) (h : 0 ∈ l) :
    ∃ sv rest, l = sv ++ 0 :: rest ∧ 0 ∉ sv := by
  induction l with
  | nil => simp at h
  | cons x t ih =>
    by_cases hx : x = 0
    · exact ⟨[], t, by simp [hx], by simp⟩
    · have ht : 0 ∈ t := by
        rcases List.mem_cons.mp h with h | h
        · exact absurd h.symm hx
        · exact h
      obtain ⟨sv, rest, e, hn⟩ := ih ht
      refine ⟨x :: sv, rest, by simp [e], ?_⟩
      intro hmem
      rcases List.mem_cons.mp hmem with h | h
      · exact hx h.symm
      · exact hn h

theorem split_fifteen (rest : List Nat) (h : 15 ≤ rest.length) :
    rest = rest.take 4 ++ ((rest.drop 4).take 8 ++
      (rest.getD 12 0 :: rest.getD 13 0 :: rest.getD 14 0 :: rest.drop 15)) := by
  have e12 : rest.drop 12 = rest.getD 12 0 :: rest.drop 13 := by
    rw [List.drop_eq_getElem_cons (by omega), List.getD_eq_getElem rest 0 (by omega)]
  have e13 : rest.drop 13 = rest.getD 13 0 :: rest.drop 14 := by
    rw [List.drop_eq_getElem_cons (by omega), List.getD_eq_getElem rest 0 (by omega)]
  have e14 : rest.drop 14 = rest.getD 14 0 :: rest.drop 15 := by
    rw [List.drop_eq_getElem_cons (by omega), List.getD_eq_getElem rest 0 (by omega)]
  have e8 : (rest.drop 4).drop 8 = rest.drop 12 := by rw [List.drop_drop]
  calc rest = rest.take 4 ++ rest.drop 4 := (List.take_append_drop 4 rest).symm
    _ = rest.take 4 ++ ((rest.drop 4).take 8 ++ (rest.drop 4).drop 8) := by
        rw [List.take_append_drop 8 (rest.drop 4)]
    _ = _ := by rw [e8, e12, e13, e14]

/-- Every handshake packet `readInitPacket` accepts either has the layout of
`handshakePacket` (a zero-terminated server version, 4 bytes, 8 bytes, one
byte, the two capability bytes, and the rest), or has no zero byte after its
first byte and is exactly 16 bytes long, in which case `bytes.IndexByte`
returned -1 and the 8 bytes stored are those at offsets 5 to 12. -/
theorem readInitPacket_accepted_layout (mc mc1 mc2 : sphinxqlConn) (data : List Nat)
    (hp : readPacket mc = (.ok data, mc1)) (hok : readInitPacket mc = .ret (none, mc2)) :
    (∃ version sv connId salt1 filler fl0 fl1 more,
      0 ∉ sv ∧ connId.length = 4 ∧ salt1.length = 8 ∧
      data = handshakePacket version sv connId salt1 filler fl0 fl1 more) ∨
    (0 ∉ data.drop 1 ∧ data.length = 16 ∧
      mc2.cipher = mc1.cipher ++ (data.drop 5).take 8) := by
  unfold readInitPacket at hok
  rw [hp] at hok
  simp only at hok
  by_cases hz : 0 ∈ data.drop 1
  · left
    obtain ⟨sv, rest, e, hn⟩ := mem_split_first _ hz
    have hpos : (1 + indexByte (data.drop 1) 0 + 1 + 4).toNat = sv.length + 6 := by
      rw [e, indexByte_terminated sv rest hn]; omega
    rw [hpos] at hok
    cases data with
    | nil => simp at hz
    | cons v t =>
      simp only [List.drop_succ_cons, List.drop_zero] at e
      subst e
      by_cases c1 : (v :: (sv ++ 0 :: rest)).length < sv.length + 6 + 8
      · rw [if_pos c1] at hok; cases hok
      · rw [if_neg c1] at hok
        by_cases c2 : (v :: (sv ++ 0 :: rest)).length < sv.length + 6 + (8 + 1) + 2
        · rw [if_pos c2] at hok; cases hok
        · have hr : 15 ≤ rest.length := by
            simp only [List.length_cons, List.length_append] at c2; omega
          refine ⟨v, sv, rest.take 4, (rest.drop 4).take 8, rest.getD 12 0, rest.getD 13 0,
            rest.getD 14 0, rest.drop 15, hn, ?_, ?_, ?_⟩
          · simp only [List.length_take]; omega
          · simp only [List.length_take, List.length_drop]; omega
          · have hs := split_fifteen rest hr
            simp only [handshakePacket, List.singleton_append, List.cons_append, List.append_assoc,
              List.nil_append, List.cons.injEq, true_and, List.append_cancel_left_eq]
            exact hs
  · right
    have hpos : (1 + indexByte (data.drop 1) 0 + 1 + 4).toNat = 5 := by
      unfold indexByte; rw [if_neg hz]; rfl
    rw [hpos] at hok
    by_cases c1 : data.length < 5 + 8
    · rw [if_pos c1] at hok; cases hok
    · rw [if_neg c1] at hok
      by_cases c2 : data.length < 5 + (8 + 1) + 2
      · rw [if_pos c2] at hok; cases hok
      · rw [if_neg c2] at hok
        by_cases c3 : data.length > 5 + (8 + 1) + 2
        · exfalso
          rw [if_pos c3] at hok
          by_cases c4 : data.length < 5 + (8 + 1) + 2 + (1 + 2 + 2 + 1 + 10) + 12
          · rw [if_pos c4] at hok; cases hok
          · rw [if_neg c4] at hok
            by_cases c5 : data.getD (data.length - 1) 0 = 0
            · apply hz
              have hl : data.length - 1 < data.length := by omega
              rw [List.getD_eq_getElem data 0 hl] at c5
              have hm : data[data.length - 1] ∈ data.drop 1 := by
                rw [List.mem_iff_getElem]
                refine ⟨data.length - 2, by simp; omega, ?_⟩
                simp only [List.getElem_drop]
                congr 1; omega
              rw [c5] at hm; exact hm
            · rw [if_neg c5] at hok
              simp at hok
        · rw [if_neg c3] at hok
          simp only [Run.ret.injEq, Prod.mk.injEq] at hok
          refine ⟨hz, by omega, ?_⟩
          rw [← hok.2]

/-! ## Draining -/

theorem wireStream_append (s : Nat) (a b : List (List Nat)) (hs : s < 256) :
    wireStream s (a ++ b) = wireStream s a ++ wireStream ((s + a.length) % 256) b := by
  induction a generalizing s with
  | nil => simp [wireStream, Nat.mod_eq_of_lt hs]
  | cons p a ih =>
    have e : ((s + 1) % 256 + a.length) % 256 = (s + (a.length + 1)) % 256 := by omega
    show wirePacket s p ++ wireStream ((s + 1) % 256) (a ++ b) =
      (wirePacket s p ++ wireStream ((s + 1) % 256) a) ++
        wireStream ((s + (a.length + 1)) % 256) b
    rw [ih ((s + 1) % 256) (Nat.mod_lt _ (by decide)), e, List.append_assoc]

theorem readUntilEOFLoop_stream (ps : List (List Nat)) :
    ∀ (fuel : Nat) (mc : sphinxqlConn) (eofp rest : List Nat),
      (∀ p ∈ ps, 1 ≤ p.length ∧ p.length < 2 ^ 24 ∧ ¬ (p.getD 0 0 = 254 ∧ p.length = 5)) →
      eofp.getD 0 0 = 254 → eofp.length = 5 →
      mc.buf.pending.length < fuel →
      mc.buf.pending = wireStream mc.sequence (ps ++ [eofp]) ++ rest →
      readUntilEOFLoop fuel mc =
        (none, { mc with sequence := (mc.sequence + ps.length + 1) % 256, buf := ⟨rest⟩ }) := by
  induction ps with
  | nil =>
    intro fuel mc eofp rest _ h0 h5 hfuel hin
    cases fuel with
    | zero => omega
    | succ n =>
      have hin2 : mc.buf.pending = wirePacket mc.sequence eofp ++ rest := by
        simpa [wireStream] using hin
      have hp := readPacket_wirePacket mc eofp rest (by omega) (by omega) hin2
      have hstop : ¬ (eofp.getD 0 0 ≠ 254 ∨ eofp.length ≠ 5) := by
        rw [h0, h5]; simp
      rw [readUntilEOFLoop, hp]
      simp only [if_neg hstop, List.length_nil, Nat.add_zero]
  | cons p ps ih =>
    intro fuel mc eofp rest hv h0 h5 hfuel hin
    cases fuel with
    | zero => omega
    | succ n =>
      have hin2 : mc.buf.pending = wirePacket mc.sequence p ++
          (wireStream ((mc.sequence + 1) % 256) (ps ++ [eofp]) ++ rest) := by
        simpa [wireStream] using hin
      obtain ⟨hp1, hp2, hp3⟩ := hv p (by simp)
      have hp := readPacket_wirePacket mc p _ hp1 hp2 hin2
      have hcont : p.getD 0 0 ≠ 254 ∨ p.length ≠ 5 := by
        by_contra hc
        push_neg at hc
        exact hp3 hc
      rw [readUntilEOFLoop, hp]
      simp only [if_pos hcont]
      have hfuel2 : (wireStream ((mc.sequence + 1) % 256) (ps ++ [eofp]) ++ rest).length < n := by
        have := wirePacket_length mc.sequence p
        rw [hin2] at hfuel
        simp only [List.length_append] at hfuel ⊢
        omega
      rw [ih n { mc with sequence := (mc.sequence + 1) % 256,
                         buf := ⟨wireStream ((mc.sequence + 1) % 256) (ps ++ [eofp]) ++ rest⟩ }
        eofp rest (fun r hr => hv r (by simp [hr])) h0 h5 hfuel2 rfl]
      have hs : ((mc.sequence + 1) % 256 + ps.length + 1) % 256 =
          (mc.sequence + (ps.length + 1) + 1) % 256 := by omega
      simp [hs]

/-- `readUntilEOF` on `k` correctly sequenced packets that are not the end
marker, followed by an end marker: it succeeds, consumes exactly those `k+1`
packets and advances the counter by `k+1`. -/
theorem readUntilEOF_stream (ps : List (List Nat)) (mc : sphinxqlConn) (eofp rest : List Nat)
    (hv : ∀ p ∈ ps, 1 ≤ p.length ∧ p.length < 2 ^ 24 ∧ ¬ (p.getD 0 0 = 254 ∧ p.length = 5))
    (h0 : eofp.getD 0 0 = 254) (h5 : eofp.length = 5)
    (hin : mc.buf.pending = wireStream mc.sequence (ps ++ [eofp]) ++ rest) :
    readUntilEOF mc =
      (none, { mc with sequence := (mc.sequence + ps.length + 1) % 256, buf := ⟨rest⟩ }) :=
  readUntilEOFLoop_stream ps _ mc eofp rest hv h0 h5 (by omega) hin

/-! ## C11 -/

/-- C11: `Close` on a row stream attached to its session. If the stream has
not reported end-of-sequence and the unread input is `k` correctly sequenced
packets that are not the end marker followed by a 5-byte 0xFE packet, `Close`
succeeds and consumes exactly those `k+1` packets; a command written
afterwards carries sequence number 0 and leaves the counter at 1, and its
response packet with sequence number 1 is accepted by `readPacket`. If the
stream has reported end-of-sequence, `Close` reads nothing. -/
theorem Close_drains (rows : sphinxqlRows) (mc : sphinxqlConn) (ps : List (List Nat))
    (eofp rest : List Nat)
    (hv : ∀ p ∈ ps, 1 ≤ p.length ∧ p.length < 2 ^ 24 ∧ ¬ (p.getD 0 0 = 254 ∧ p.length = 5))
    (h0 : eofp.getD 0 0 = 254) (h5 : eofp.length = 5) (hm : rows.mc = true) :
    (rows.eof = false →
      mc.buf.pending = wireStream mc.sequence (ps ++ [eofp]) ++ rest →
      rows.Close mc =
        ((none, { rows with mc := false }),
          { mc with sequence := (mc.sequence + ps.length + 1) % 256, buf := ⟨rest⟩ }) ∧
      ∀ (q data rest2 : List Nat),
        (writeCommandPacketStr COM_QUERY q (rows.Close mc).2).1 = none →
        1 ≤ data.length → data.length < 2 ^ 24 → rest = wirePacket 1 data ++ rest2 →
        ∃ mcw, writeCommandPacketStr COM_QUERY q (rows.Close mc).2 = (none, mcw) ∧
          newlyWritten (rows.Close mc).2 mcw = wirePacket 0 (COM_QUERY :: q) ∧
          mcw.sequence = 1 ∧
          readPacket mcw = (.ok data, { mcw with sequence := 2, buf := ⟨rest2⟩ })) ∧
    (rows.eof = true → rows.Close mc = ((none, { rows with mc := false }), mc)) := by
  constructor
  · intro he hin
    have hc : rows.Close mc =
        ((none, { rows with mc := false }),
          { mc with sequence := (mc.sequence + ps.length + 1) % 256, buf := ⟨rest⟩ }) := by
      simp [sphinxqlRows.Close, he, hm, readUntilEOF_stream ps mc eofp rest hv h0 h5 hin]
    refine ⟨hc, ?_⟩
    intro q data rest2 hw h1 h2 hrest
    rw [hc] at hw ⊢
    obtain ⟨nc, hnc, heq⟩ := writeCommandPacketStr_success COM_QUERY q _ hw
    refine ⟨_, heq, ?_, rfl, ?_⟩
    · simp only [newlyWritten, hnc, List.drop_left]
    · exact readPacket_wirePacket _ data rest2 h1 h2 (by simpa using hrest)
  · intro he
    simp [sphinxqlRows.Close, he]

/-- Witness of C11: a stream with two unread packets before the end marker,
closed at counter 5; the next command's response (sequence 1) is read. And a
stream that has reported end-of-sequence, closed with input pending. -/
theorem Close_drains_witness :
    sphinxqlRows.Close ⟨true, [], false⟩
        (sessionOn (wireStream 5 ([[1, 49], [0xfb]] ++ [eofPacket]) ++ wirePacket 1 [2]) 5) =
      ((none, ⟨false, [], false⟩), sessionOn (wirePacket 1 [2]) 8) ∧
    (∃ mcw, writeCommandPacketStr COM_QUERY (strBytes "SELECT")
          (sessionOn (wirePacket 1 [2]) 8) = (none, mcw) ∧
        mcw.sequence = 1 ∧
        readPacket mcw = (.ok [2], { mcw with sequence := 2, buf := ⟨[]⟩ })) ∧
    sphinxqlRows.Close ⟨true, [], true⟩ (sessionOn (wirePacket 1 [2]) 0) =
      ((none, ⟨false, [], true⟩), sessionOn (wirePacket 1 [2]) 0) :=
  ⟨((Close_drains ⟨true, [], false⟩
      (sessionOn (wireStream 5 ([[1, 49], [0xfb]] ++ [eofPacket]) ++ wirePacket 1 [2]) 5)
      [[1, 49], [0xfb]] eofPacket (wirePacket 1 [2]) (by decide) rfl rfl rfl).1 rfl rfl).1,
   by
    obtain ⟨mcw, h1, -, h3, h4⟩ := ((Close_drains ⟨true, [], false⟩
      (sessionOn (wireStream 5 ([[1, 49], [0xfb]] ++ [eofPacket]) ++ wirePacket 1 [2]) 5)
      [[1, 49], [0xfb]] eofPacket (wirePacket 1 [2]) (by decide) rfl rfl rfl).1 rfl rfl).2
      (strBytes "SELECT") [2] [] rfl (by decide) (by decide) rfl
    exact ⟨mcw, h1, h3, h4⟩,
   (Close_drains ⟨true, [], true⟩ (sessionOn (wirePacket 1 [2]) 0) [] eofPacket []
      (by decide) rfl rfl rfl).2 rfl⟩

/-! ## C13 -/

theorem columnPacket_isColumnPacket (nm : List Nat) (h : nm.length < 0xfb) :
    IsColumnPacket (columnPacket nm) ⟨nm, 0xfd, 1⟩ :=
  ⟨[3, 100, 101, 102], [0], [0], [0], [nm.length] ++ nm, [0],
    some [100, 101, 102], some [], some [], some [], some [],
    [0x0c, 33, 0, 10, 0, 0, 0], 1, 0, [0, 0, 0],
    ⟨[3], by decide, rfl⟩, ⟨[0], by decide, rfl⟩, ⟨[0], by decide, rfl⟩, ⟨[0], by decide, rfl⟩,
    ⟨[nm.length], by simp [IsLenEncInt, h], rfl⟩, ⟨[0], by decide, rfl⟩,
    rfl, by decide, rfl, by simp [columnPacket]⟩

/-- C13: for every `N` (in particular `N ≥ 1`) and a stream of `N` well-formed, correctly sequenced
column-definition packets followed by the 5-byte 0xFE end marker,
`readColumns N` succeeds and returns exactly `N` descriptors in packet order,
the `i`-th being the one its packet describes (`IsColumnPacket`: name = the
fifth length-encoded string, field type = the byte 7 bytes after the end of
the sixth string, flags = the little-endian value of the two bytes after the
field type); `Columns` on the row stream built from them returns the names in
that order. -/
theorem readColumns_descriptors (N : Nat) (ps : List (List Nat)) (fs : List sphinxqlField)
    (mc : sphinxqlConn) (eofp rest : List Nat)
    (hk : ps.length = N)
    (hf : List.Forall₂ IsColumnPacket ps fs) (hl : ∀ p ∈ ps, p.length < 2 ^ 24)
    (h0 : eofp.getD 0 0 = 254) (h5 : eofp.length = 5)
    (hin : mc.buf.pending = wireStream mc.sequence (ps ++ [eofp]) ++ rest) :
    readColumns N mc =
      .ret ((fs, none), { mc with sequence := (mc.sequence + N + 1) % 256, buf := ⟨rest⟩ }) ∧
    fs.length = N ∧
    sphinxqlRows.Columns ⟨true, fs, false⟩ = fs.map (fun f => f.name) := by
  have h := readColumns_stream N ps fs mc eofp rest hf hl h0 h5 hin
  have hfl : fs.length = N := by rw [← hf.length_eq, hk]
  refine ⟨?_, hfl, rfl⟩
  rw [h, hk]
  simp

/-- Witness of C13: scenario B. The definitions of "id" and "name" followed
by the end marker give the two descriptors, names "id" then "name". -/
theorem readColumns_descriptors_witness :
    readColumns 2 (sessionOn (wireStream 2
        ([columnPacket (strBytes "id"), columnPacket (strBytes "name")] ++ [eofPacket])) 2) =
      .ret (([⟨strBytes "id", 0xfd, 1⟩, ⟨strBytes "name", 0xfd, 1⟩], none), sessionOn [] 5) ∧
    sphinxqlRows.Columns ⟨true, [⟨strBytes "id", 0xfd, 1⟩, ⟨strBytes "name", 0xfd, 1⟩], false⟩ =
      [strBytes "id", strBytes "name"] :=
  ⟨(readColumns_descriptors 2 [columnPacket (strBytes "id"), columnPacket (strBytes "name")]
      [⟨strBytes "id", 0xfd, 1⟩, ⟨strBytes "name", 0xfd, 1⟩]
      (sessionOn (wireStream 2
        ([columnPacket (strBytes "id"), columnPacket (strBytes "name")] ++ [eofPacket])) 2)
      eofPacket [] rfl
      (List.Forall₂.cons (columnPacket_isColumnPacket _ (by decide))
        (List.Forall₂.cons (columnPacket_isColumnPacket _ (by decide)) List.Forall₂.nil))
      (by decide) rfl rfl rfl).1,
   rfl⟩

/-! ## C19 -/

theorem isLenEncInt_head (cnt : List Nat) (N : Nat) (h : IsLenEncInt cnt N) (hN : 1 ≤ N) :
    cnt.getD 0 0 ≠ 0 ∧ cnt.getD 0 0 ≠ 255 ∧ 1 ≤ cnt.length ∧ cnt.length < 2 ^ 24 := by
  cases cnt with
  | nil => simp [IsLenEncInt] at h
  | cons b0 t =>
    simp only [IsLenEncInt] at h
    simp only [List.getD_cons_zero, List.length_cons]
    rcases h with ⟨h1, h2, h3⟩ | ⟨h1, h2, h3⟩ | ⟨h1, h2, h3⟩ | ⟨h1, h2, h3⟩
    · subst h2; subst h3
      simp only [List.length_nil]
      omega
    · omega
    · omega
    · omega

theorem forall₂_columnPacket_length (ps : List (List Nat)) (fs : List sphinxqlField)
    (hf : List.Forall₂ IsColumnPacket ps fs) : ∀ p ∈ ps, 16 ≤ p.length := by
  induction hf with
  | nil => intro p hp; simp at hp
  | @cons p f ps fs hpf _ ih =>
    intro r hr
    rcases List.mem_cons.mp hr with h | h
    · rw [h]; exact isColumnPacket_length p f hpf
    · exact ih r h

/-- The header of a result set: a packet holding the length-encoded integer
`N` with `1 ≤ N < 2^63` announces `N` columns. -/
theorem readResultSetHeaderPacket_count (mc mc1 : sphinxqlConn) (cnt : List Nat) (N : Nat)
    (hp : readPacket mc = (.ok cnt, mc1)) (hc : IsLenEncInt cnt N) (hN1 : 1 ≤ N)
    (hN : N < 2 ^ 63) :
    readResultSetHeaderPacket mc = .ret (((N : Int), none), mc1) := by
  obtain ⟨h0, h255, -, -⟩ := isLenEncInt_head cnt N hc hN1
  have hd := isLenEncInt_decode cnt N [] hc
  rw [List.append_nil] at hd
  rw [readResultSetHeaderPacket_of_packet mc mc1 cnt hp]
  simp only [h0, h255, if_false, hd, if_true, toInt64_small N hN]

/-- C19: for a response made of a column-count packet `N` (`1 ≤ N < 2^63`),
exactly `N` well-formed column-definition packets, a 5-byte 0xFE end marker,
`k ≥ 0` row packets (any packets that are not the end marker) and a final
5-byte 0xFE end marker, all correctly sequenced from 1 on, the internal
`exec` and `Query` followed by `Close` on the returned row stream both
succeed and leave the session in one and the same state: all those packets
consumed, what follows them unread, the same sequence counter. -/
theorem exec_agrees_with_Query_Close (q : List Nat) (mc : sphinxqlConn)
    (cnt : List Nat) (N : Nat) (defs : List (List Nat)) (fs : List sphinxqlField)
    (rowPackets : List (List Nat)) (eof1 eof2 rest : List Nat)
    (hw : (writeCommandPacketStr COM_QUERY q mc).1 = none)
    (hc : IsLenEncInt cnt N) (hN1 : 1 ≤ N) (hN : N < 2 ^ 63) (hk : defs.length = N)
    (hf : List.Forall₂ IsColumnPacket defs fs) (hl : ∀ p ∈ defs, p.length < 2 ^ 24)
    (hr : ∀ p ∈ rowPackets,
      1 ≤ p.length ∧ p.length < 2 ^ 24 ∧ ¬ (p.getD 0 0 = 254 ∧ p.length = 5))
    (h10 : eof1.getD 0 0 = 254) (h15 : eof1.length = 5)
    (h20 : eof2.getD 0 0 = 254) (h25 : eof2.length = 5)
    (hin : mc.buf.pending =
      wirePacket 1 cnt ++ wireStream 2 ((defs ++ [eof1]) ++ (rowPackets ++ [eof2])) ++ rest) :
    ∃ (mcF : sphinxqlConn) (rows : sphinxqlRows) (mc1 : sphinxqlConn),
      exec q mc = .ret (none, mcF) ∧
      Query q [] mc = .ret ((some rows, none), mc1) ∧
      rows.Close mc1 = ((none, { rows with mc := false }), mcF) ∧
      mcF.buf.pending = rest ∧
      mcF.sequence = (2 + N + 1 + rowPackets.length + 1) % 256 := by
  obtain ⟨h0, h255, hc1, hc2⟩ := isLenEncInt_head cnt N hc hN1
  have hin1 : mc.buf.pending = wirePacket 1 cnt ++
      (wireStream 2 ((defs ++ [eof1]) ++ (rowPackets ++ [eof2])) ++ rest) := by
    rw [hin, List.append_assoc]
  obtain ⟨mcw, hw1, hrd, -⟩ := response_packet q mc cnt _ hw hc1 hc2 hin1
  have hh := readResultSetHeaderPacket_count mcw _ cnt N hrd hc hN1 hN
  have hsplit : wireStream 2 ((defs ++ [eof1]) ++ (rowPackets ++ [eof2])) =
      wireStream 2 (defs ++ [eof1]) ++
        wireStream ((2 + N + 1) % 256) (rowPackets ++ [eof2]) := by
    rw [wireStream_append 2 _ _ (by decide)]
    simp only [List.length_append, List.length_cons, List.length_nil, hk]
    rfl
  have hdefs : ∀ p ∈ defs,
      1 ≤ p.length ∧ p.length < 2 ^ 24 ∧ ¬ (p.getD 0 0 = 254 ∧ p.length = 5) := by
    intro p hp
    have := forall₂_columnPacket_length defs fs hf p hp
    exact ⟨by omega, hl p hp, by omega⟩
  -- the state after the column-count packet
  have hpend :
      ({ mcw with
          sequence := 2
          buf := ⟨wireStream 2 ((defs ++ [eof1]) ++ (rowPackets ++ [eof2])) ++ rest⟩ } :
        sphinxqlConn).buf.pending =
      wireStream 2 (defs ++ [eof1]) ++
        (wireStream ((2 + N + 1) % 256) (rowPackets ++ [eof2]) ++ rest) := by
    show wireStream 2 ((defs ++ [eof1]) ++ (rowPackets ++ [eof2])) ++ rest = _
    rw [hsplit, List.append_assoc]
  -- first drain, respectively readColumns
  have hd1 := readUntilEOF_stream defs _ eof1 _ hdefs h10 h15 hpend
  have hcols := readColumns_stream N defs fs _ eof1 _ hf hl h10 h15 hpend
  rw [hk] at hd1 hcols
  simp only [Nat.le_refl, if_true, Nat.sub_self, List.replicate_zero, List.append_nil] at hcols
  -- second drain
  have hd2 := readUntilEOF_stream rowPackets
    { mcw with sequence := (2 + N + 1) % 256,
               buf := ⟨wireStream ((2 + N + 1) % 256) (rowPackets ++ [eof2]) ++ rest⟩ }
    eof2 rest hr h20 h25 rfl
  have hpos : ((N : Int) > 0) := by omega
  have hnat : (N : Int).toNat = N := Int.toNat_ofNat N
  refine ⟨{ mcw with sequence := ((2 + N + 1) % 256 + rowPackets.length + 1) % 256,
                      buf := ⟨rest⟩ },
    ⟨true, fs, false⟩,
    { mcw with sequence := (2 + N + 1) % 256,
               buf := ⟨wireStream ((2 + N + 1) % 256) (rowPackets ++ [eof2]) ++ rest⟩ },
    ?_, ?_, ?_, rfl, ?_⟩
  · unfold exec
    rw [hw1]
    simp only [hh, hpos, and_self, if_true, hd1]
    rw [hd2]
  · unfold Query
    rw [hw1]
    simp only [List.length_nil, if_true, hh, hpos, hnat, hcols]
  · simp only [sphinxqlRows.Close, Bool.not_false, if_true, Bool.not_true, Bool.false_eq_true,
      if_false, hd2]
  · show ((2 + N + 1) % 256 + rowPackets.length + 1) % 256 =
      (2 + N + 1 + rowPackets.length + 1) % 256
    omega

/-- Witness of C19: the response of scenario B (column count 2, the
definitions of "id" and "name", end marker, two rows, end marker). -/
theorem exec_agrees_with_Query_Close_witness :
    ∃ (mcF : sphinxqlConn) (rows : sphinxqlRows) (mc1 : sphinxqlConn),
      exec (strBytes "SELECT")
        (sessionOn (wirePacket 1 [2] ++
          wireStream 2 (([columnPacket (strBytes "id"), columnPacket (strBytes "name")] ++
            [eofPacket]) ++ ([[1, 49, 5, 97, 108, 105, 99, 101], [1, 50, 0xfb]] ++ [eofPacket]))
          ++ [77]) 0) = .ret (none, mcF) ∧
      Query (strBytes "SELECT") []
        (sessionOn (wirePacket 1 [2] ++
          wireStream 2 (([columnPacket (strBytes "id"), columnPacket (strBytes "name")] ++
            [eofPacket]) ++ ([[1, 49, 5, 97, 108, 105, 99, 101], [1, 50, 0xfb]] ++ [eofPacket]))
          ++ [77]) 0) = .ret ((some rows, none), mc1) ∧
      rows.Close mc1 = ((none, { rows with mc := false }), mcF) ∧
      mcF.buf.pending = [77] ∧
      mcF.sequence = (2 + 2 + 1 + 2 + 1) % 256 :=
  exec_agrees_with_Query_Close (strBytes "SELECT") _ [2] 2
    [columnPacket (strBytes "id"), columnPacket (strBytes "name")]
    [⟨strBytes "id", 0xfd, 1⟩, ⟨strBytes "name", 0xfd, 1⟩]
    [[1, 49, 5, 97, 108, 105, 99, 101], [1, 50, 0xfb]] eofPacket eofPacket [77]
    rfl (by decide) (by decide) (by decide) rfl
    (List.Forall₂.cons (columnPacket_isColumnPacket _ (by decide))
      (List.Forall₂.cons (columnPacket_isColumnPacket _ (by decide)) List.Forall₂.nil))
    (by decide) (by decide) rfl rfl rfl rfl rfl

end Sphinxql
